import Mathlib

/-!
Shallow embedding of `wac_monthly_report.py`.

The program is a three-stage pandas pipeline:
  * `collect_data`  : read every worksheet whose name contains a comma, tag its
    rows with the sheet name in a `Student Name` column, and append everything
    into one growing dataframe (column union, `ignore_index=True`).
  * `clean_records` : drop rows with a null `Contact Date` (logging each), drop
    rows whose `Contact Date` matches the regex `[A-Z][a-z]` (logging each),
    parse the remaining date cells, normalize several text columns, and keep
    only rows whose date lies in `[start_date, end_date]`.
  * `format_report` : drop columns whose name contains `".1"`, rename six
    columns to their presentation names, strip the time-of-day from
    `Contact Date`, and select the ten report columns in order.

Dataframes are modelled as a list of column labels plus rows carrying the
pandas integer index and one cell per column position.  Cells are
`Option Value` with `none` playing the role of NaN/NaT; dates are held at
calendar-day granularity as `Int`.  Label lookup takes the first matching
column, which is how every frame built by this pipeline behaves (worksheet
concatenation produces distinct labels).  The date parser used by
`pd.to_datetime` is external library code and is passed in as a parameter
`p : String → Option Int`; a `none` result models a raised parse error, which
aborts `clean_records` exactly as the uncaught pandas exception aborts the
run.  Python `str.strip`/`str.title` are modelled on the ASCII fragment they
are exercised on here.
-/

namespace WAC

/-! ### Characters: the ASCII model of Python's `str` case and space tests -/

/-- ASCII upper-case letter test (`A`–`Z`). -/
def isUpperA (c : Char) : Bool := decide (65 ≤ c.toNat ∧ c.toNat ≤ 90)

/-- ASCII lower-case letter test (`a`–`z`). -/
def isLowerA (c : Char) : Bool := decide (97 ≤ c.toNat ∧ c.toNat ≤ 122)

/-- A cased character in the ASCII model: a letter. -/
def isCasedA (c : Char) : Bool := isUpperA c || isLowerA c

/-- Whitespace stripped by Python `str.strip()` (ASCII fragment). -/
def isSpaceA (c : Char) : Bool :=
  decide (c.toNat = 32 ∨ c.toNat = 9 ∨ c.toNat = 10 ∨ c.toNat = 11 ∨
          c.toNat = 12 ∨ c.toNat = 13)

/-- ASCII upper-casing of one character. -/
def toUpperA (c : Char) : Char :=
  if isLowerA c then Char.ofNat (c.toNat - 32) else c

/-- ASCII lower-casing of one character. -/
def toLowerA (c : Char) : Char :=
  if isUpperA c then Char.ofNat (c.toNat + 32) else c

/-- One step of Python `str.title()`: a cased character is upper-cased when
the previous character was uncased and lower-cased otherwise; uncased
characters pass through. -/
def stepT (fl : Bool) (c : Char) : Char :=
  if isCasedA c then (if fl then toLowerA c else toUpperA c) else c

/-- Python `str.title()` over a character list; the flag records whether the
previous character was cased. -/
def titleAux (fl : Bool) : List Char → List Char
  | [] => []
  | c :: cs => stepT fl c :: titleAux (isCasedA c) cs

/-- The cased-flag after scanning a list, as threaded by `titleAux`. -/
def flagA (fl : Bool) : List Char → Bool
  | [] => fl
  | c :: cs => flagA (isCasedA c) cs

/-- Python `str.strip()` over a character list: drop whitespace from both
ends. -/
def stripL (l : List Char) : List Char :=
  ((l.dropWhile isSpaceA).reverse.dropWhile isSpaceA).reverse

/-- Does the second list start with the first? -/
def startsWithL : List Char → List Char → Bool
  | [], _ => true
  | _ :: _, [] => false
  | p :: ps, c :: cs => p == c && startsWithL ps cs

/-- Does `pat` occur as a contiguous substring (Python `pat in s`)? -/
def hasSubL (pat : List Char) : List Char → Bool
  | [] => startsWithL pat []
  | c :: cs => startsWithL pat (c :: cs) || hasSubL pat cs

/-- The placeholder phrase removed from the topic column. -/
def phraseL : List Char := "same as above".data

/-- Python `str.replace(pat, '')` scanning engine for the fixed phrase: the
fuel argument starts at the list length and bounds the recursion. -/
def rmPhraseAux : Nat → List Char → List Char
  | _, [] => []
  | 0, l => l
  | fuel + 1, c :: cs =>
    if startsWithL phraseL (c :: cs) then rmPhraseAux fuel ((c :: cs).drop phraseL.length)
    else c :: rmPhraseAux fuel cs

/-- Python `s.replace('same as above', '')`. -/
def rmPhrase (l : List Char) : List Char := rmPhraseAux l.length l

/-- Python `s.strip()`. -/
def pyStrip (s : String) : String := ⟨stripL s.data⟩

/-- Python `s.title()`. -/
def pyTitle (s : String) : String := ⟨titleAux false s.data⟩

/-- The cleaner's `.str.strip().str.title()` applied to one string, used for
`Student Name` and `Assigned to Writing Fellow` (lines 109-110 and 119-120). -/
def normName (s : String) : String := pyTitle (pyStrip s)

/-- The cleaner's `.str.title().str.strip()` applied to one string, used for
`Correspondence Method` (lines 121-122; note the reversed order). -/
def normMethod (s : String) : String := pyStrip (pyTitle s)

/-- The cleaner's `.str.strip().str.replace('same as above', '')` applied to
one string, used for `Content/Topic of the Exchange` (lines 116-118). -/
def normTopic (s : String) : String := ⟨rmPhrase (stripL s.data)⟩

/-! ### The data model: cells, rows, frames -/

/-- A spreadsheet value as it matters to this pipeline: free text or a
calendar date (day granularity). -/
inductive Value where
  | str (s : String)
  | date (d : Int)
deriving DecidableEq

/-- A cell; `none` is pandas NaN/NaT. -/
abbrev Cell := Option Value

/-- One dataframe row: the pandas integer index plus one cell per column
position. -/
structure Row where
  idx : Nat
  cells : List Cell
deriving DecidableEq

/-- A dataframe: ordered column labels and rows. -/
structure Frame where
  cols : List String
  rows : List Row
deriving DecidableEq

/-- Position of the first column with the given label. -/
def colIdx : List String → String → Option Nat
  | [], _ => none
  | c :: cs, t => if c = t then some 0 else (colIdx cs t).map (· + 1)

/-- The cell at a column position (missing positions read as NaN). -/
def cellAt (i : Nat) (r : Row) : Cell := r.cells.getD i none

/-- Label-based cell lookup: the first column with this label. -/
def lookupCell : List String → List Cell → String → Cell
  | [], _, _ => none
  | c :: cs, cells, t => if c = t then cells.getD 0 none else lookupCell cs cells.tail t

/-- Pandas `.str` accessor applied cellwise: NaN and non-string values map to
NaN, strings are transformed. -/
def strCell (f : String → String) : Cell → Cell
  | some (Value.str s) => some (Value.str (f s))
  | _ => none

/-- Pandas `fillna('')` applied cellwise. -/
def fillCell : Cell → Cell
  | none => some (Value.str "")
  | c => c

/-- The regex `[A-Z][a-z]` of line 94 under `re.match` semantics: the string
must begin with an upper-case letter followed by a lower-case letter. -/
def matchCapStr (s : String) : Bool :=
  match s.data with
  | c1 :: c2 :: _ => isUpperA c1 && isLowerA c2
  | _ => false

/-- Line 95-96: `.str.match(pattern, na=False)` cellwise; non-strings and NaN
give `False`. -/
def matchCap : Cell → Bool
  | some (Value.str s) => matchCapStr s
  | _ => false

/-- One warning record emitted by `clean_records`. -/
inductive LogEntry where
  | emptyDate (idx : Nat) (student : Cell)
  | invalid (idx : Nat) (student : Cell)
deriving DecidableEq

/-! ### Collector (`InteractionData.collect_data`, lines 64-81) -/

/-- One worksheet as handed over by `pd.read_excel`: its name, header and
data rows. -/
structure Sheet where
  name : String
  cols : List String
  rows : List (List Cell)
deriving DecidableEq

/-- Rectangularity of a worksheet: every row has one cell per column.  Every
table pandas materializes has this shape. -/
def Sheet.wf (s : Sheet) : Bool := s.rows.all (fun r => r.length == s.cols.length)

/-- The dataframe `pd.read_excel` yields for a sheet: default integer index. -/
def sheetFrame (s : Sheet) : Frame := ⟨s.cols, s.rows.enum.map (fun q => ⟨q.1, q.2⟩)⟩

/-- Line 77, `df['Student Name'] = sheet`: overwrite the column if present,
else append it on the right. -/
def setColumn (f : Frame) (c : String) (v : Cell) : Frame :=
  match colIdx f.cols c with
  | some i => ⟨f.cols, f.rows.map (fun r => ⟨r.idx, r.cells.set i v⟩)⟩
  | none => ⟨f.cols ++ [c], f.rows.map (fun r => ⟨r.idx, r.cells ++ [v]⟩)⟩

/-- Column union used by `DataFrame.append`: the accumulator's labels followed
by the new labels. -/
def unionCols (a b : List String) : List String :=
  a ++ b.filter (fun c => !(a.contains c))

/-- Reindexing under `ignore_index=True`: rows renumbered `0, 1, …`. -/
def reindexRows (cellss : List (List Cell)) : List Row :=
  cellss.enum.map (fun q => ⟨q.1, q.2⟩)

/-- Reshape one row of a frame with labels `src` to the label list `tgt`;
labels absent from `src` read as NaN. -/
def toColumns (src : List String) (cells : List Cell) (tgt : List String) : List Cell :=
  tgt.map (fun c => lookupCell src cells c)

/-- Line 78, `self.data = self.data.append(df, ignore_index=True)`. -/
def appendFrames (a b : Frame) : Frame :=
  ⟨unionCols a.cols b.cols,
   reindexRows (a.rows.map (fun r => toColumns a.cols r.cells (unionCols a.cols b.cols)) ++
                b.rows.map (fun r => toColumns b.cols r.cells (unionCols a.cols b.cols)))⟩

/-- Line 69: `',' in x` for a sheet name. -/
def hasComma (s : String) : Bool := s.data.any (fun c => c == ',')

/-- Lines 64-81: keep the sheets whose name contains a comma, tag each sheet's
rows with the sheet name, and append everything to an initially empty frame. -/
def collect_data (wb : List Sheet) : Frame :=
  (wb.filter (fun s => hasComma s.name)).foldl
    (fun acc s =>
      appendFrames acc (setColumn (sheetFrame s) "Student Name" (some (Value.str s.name))))
    ⟨[], []⟩

/-! ### Cleaner (`InteractionData.clean_records`, lines 83-133) -/

/-- Positions of the six columns `clean_records` reads and writes. -/
structure ColIx where
  ci : Nat
  si : Nat
  ti : Nat
  ai : Nat
  wi : Nat
  mi : Nat
deriving DecidableEq

/-- Resolve the six column labels `clean_records` uses; any missing label
makes the pandas run raise a `KeyError`. -/
def findCols (cols : List String) : Option ColIx := do
  let ci ← colIdx cols "Contact Date"
  let si ← colIdx cols "Student Name"
  let ti ← colIdx cols "Content/Topic of the Exchange"
  let ai ← colIdx cols "Actions and/or Follow up"
  let wi ← colIdx cols "Assigned to Writing Fellow"
  let mi ← colIdx cols "Correspondence Method"
  pure ⟨ci, si, ti, ai, wi, mi⟩

/-- Lines 105-106, `pd.to_datetime` on one cell: dates pass through, strings
go to the parser `p`, an unparseable string raises. -/
def parseCell (p : String → Option Int) : Cell → Except String Cell
  | none => .ok none
  | some (Value.date d) => .ok (some (Value.date d))
  | some (Value.str s) =>
    match p s with
    | some d => .ok (some (Value.date d))
    | none => .error "to_datetime: unable to parse date"

/-- Error-propagating map over a list, first failure wins. -/
def mapE (f : α → Except String β) : List α → Except String (List β)
  | [] => .ok []
  | a :: as =>
    match f a with
    | .error e => .error e
    | .ok b =>
      match mapE f as with
      | .error e => .error e
      | .ok bs => .ok (b :: bs)

/-- Parse the `Contact Date` cell of one row. -/
def parseRow (p : String → Option Int) (ci : Nat) (r : Row) : Except String Row :=
  match parseCell p (cellAt ci r) with
  | .ok c => .ok ⟨r.idx, r.cells.set ci c⟩
  | .error e => .error e

/-- Column assignment `self.data[c] = g(self.data[c])` at column position
`i`. -/
def mapCol (i : Nat) (g : Cell → Cell) (rows : List Row) : List Row :=
  rows.map (fun r => ⟨r.idx, r.cells.set i (g (cellAt i r))⟩)

/-- Lines 126-127: the inclusive date-window test on one cell. -/
def inRangeB (sd ed : Int) : Cell → Bool
  | some (Value.date d) => decide (sd ≤ d ∧ d ≤ ed)
  | _ => false

/-- Lines 126-127: keep the rows whose contact date lies in the window. -/
def filterDates (sd ed : Int) (i : Nat) (rows : List Row) : List Row :=
  rows.filter (fun r => inRangeB sd ed (cellAt i r))

/-- Cellwise normalization of `Student Name` / `Assigned to Writing Fellow`. -/
def nameCell : Cell → Cell := strCell normName

/-- Cellwise normalization of `Content/Topic of the Exchange`. -/
def topicCell : Cell → Cell := strCell normTopic

/-- Cellwise normalization of `Correspondence Method`. -/
def methodCell : Cell → Cell := strCell normMethod

/-- Lines 89-93: the rows with a null `Contact Date`, to be logged and
dropped. -/
def nullRowsOf (ci : Nat) (rows : List Row) : List Row :=
  rows.filter (fun r => (cellAt ci r).isNone)

/-- Line 93: `self.data[pd.notnull(self.data['Contact Date'])]`. -/
def keptRows (ci : Nat) (rows : List Row) : List Row :=
  rows.filter (fun r => !(cellAt ci r).isNone)

/-- Lines 94-96: among the rows that survive the null filter, those whose
date cell matches the `[A-Z][a-z]` pattern. -/
def invRowsOf (ci : Nat) (rows : List Row) : List Row :=
  (keptRows ci rows).filter (fun r => matchCap (cellAt ci r))

/-- Lines 97-101: the loop dropping each matching row by its index label
(`self.data.drop(index, axis='rows')` removes every row bearing that
label). -/
def dropInv (ci : Nat) (rows : List Row) : List Row :=
  (invRowsOf ci rows).foldl (fun acc r => acc.filter (fun x => x.idx != r.idx)) (keptRows ci rows)

/-- Lines 108-122: the five column assignments of the text-processing block,
innermost first. -/
def textPipeline (ix : ColIx) (rows : List Row) : List Row :=
  mapCol ix.mi methodCell
    (mapCol ix.wi nameCell
      (mapCol ix.ti topicCell
        (mapCol ix.ai fillCell
          (mapCol ix.ti fillCell
            (mapCol ix.si nameCell rows)))))

/-- Lines 90-92 and 97-99: the warnings `clean_records` emits, in order —
one `emptyDate` per null-date row, then one `invalid` per pattern-matching
row, each identifying the row index and its `Student Name` cell. -/
def cleanLog (ix : ColIx) (rows : List Row) : List LogEntry :=
  (nullRowsOf ix.ci rows).map (fun r => LogEntry.emptyDate r.idx (cellAt ix.si r)) ++
  (invRowsOf ix.ci rows).map (fun r => LogEntry.invalid r.idx (cellAt ix.si r))

/-- Lines 83-133, `clean_records`: drop null-date rows (logging each), drop
rows whose date cell matches `[A-Z][a-z]` (logging each, removal by index
label), parse the remaining dates, normalize the text columns, and filter to
the inclusive window.  The `Option`/`Except` layers model the `KeyError` on a
missing column and the fatal `to_datetime` parse failure. -/
def clean_records (sd ed : Int) (p : String → Option Int) (f : Frame) :
    Except String (Frame × List LogEntry) :=
  match findCols f.cols with
  | none => .error "KeyError: missing column"
  | some ix =>
    match mapE (parseRow p ix.ci) (dropInv ix.ci f.rows) with
    | .error e => .error e
    | .ok rows3 =>
      .ok (⟨f.cols, filterDates sd ed ix.ci (textPipeline ix rows3)⟩, cleanLog ix f.rows)

/-! ### Formatter (`Report.format_report`, lines 152-180) -/

/-- The two characters of the duplicate-column marker. -/
def dotOne : List Char := ['.', '1']

/-- Line 157: `'.1' in x` — substring containment, not a suffix test. -/
def hasDotOne (s : String) : Bool := hasSubL dotOne s.data

/-- Project one row onto the columns whose label survives the `.1` drop. -/
def dropRow : List String → List Cell → List Cell
  | [], _ => []
  | c :: cs, cells =>
    if hasDotOne c then dropRow cs cells.tail
    else cells.getD 0 none :: dropRow cs cells.tail

/-- Lines 156-158: drop every column whose label contains `.1`. -/
def dropDupCols (f : Frame) : Frame :=
  ⟨f.cols.filter (fun c => !hasDotOne c),
   f.rows.map (fun r => ⟨r.idx, dropRow f.cols r.cells⟩)⟩

/-- Lines 160-173: the fixed rename mapping. -/
def renameCol (c : String) : String :=
  if c = "Assigned to Writing Fellow" then "Writing Fellow"
  else if c = "Correspondence Method" then "Type of contact"
  else if c = "Course (only the abbreviated form, e.g. PSY240)" then "Course"
  else if c = "Student Name" then "Student"
  else if c = "Contact Info" then "Student Contact Info"
  else if c = "Professor (only last name)" then "Professor"
  else c

/-- Lines 160-173: `DataFrame.rename` leaves the cells alone. -/
def renameFrame (f : Frame) : Frame := ⟨f.cols.map renameCol, f.rows⟩

/-- The `.dt.date` value map: at day granularity a date is unchanged; NaT
stays NaT. -/
def dtCell : Cell → Cell
  | some (Value.date d) => some (Value.date d)
  | _ => none

/-- Is a cell acceptable to the `.dt` accessor (datetime or NaT)? -/
def isDateOrNull : Cell → Bool
  | none => true
  | some (Value.date _) => true
  | some (Value.str _) => false

/-- Line 174: `self.data['Contact Date'].dt.date` — a `KeyError` if the
column is missing, an error if the column is not datetimelike. -/
def dtDate (f : Frame) : Except String Frame :=
  match colIdx f.cols "Contact Date" with
  | none => .error "KeyError: Contact Date"
  | some i =>
    if f.rows.all (fun r => isDateOrNull (cellAt i r)) then
      .ok ⟨f.cols, mapCol i dtCell f.rows⟩
    else .error "dt accessor requires datetimelike values"

/-- Lines 176-180: the ten output columns, in order. -/
def reportColumns : List String :=
  ["Contact Date", "Student", "Student Contact Info", "Major",
   "Course", "Professor", "Writing Fellow", "Type of contact",
   "Content/Topic of the Exchange", "Actions and/or Follow up"]

/-- The cells of every column bearing a label, in frame order: pandas label
selection returns all matching columns, not just the first. -/
def cellsOfLabel : List String → List Cell → String → List Cell
  | [], _, _ => []
  | c :: cs, cells, t =>
    if c = t then cells.getD 0 none :: cellsOfLabel cs cells.tail t
    else cellsOfLabel cs cells.tail t

/-- One row of `self.data[[...]]`: for each requested label in request
order, the cells of every column bearing that label. -/
def selRow (cols : List String) (cells : List Cell) (tgt : List String) : List Cell :=
  tgt.flatMap (fun t => cellsOfLabel cols cells t)

/-- Lines 176-180: `self.data[[...]]` — `KeyError` when a requested label is
missing; otherwise, for each requested label in request order, every column
bearing that label (pandas returns all of them, so a duplicated label is
replicated in the output). -/
def selectCols (tgt : List String) (f : Frame) : Except String Frame :=
  if tgt.all (fun t => (colIdx f.cols t).isSome) then
    .ok ⟨tgt.flatMap (fun t => f.cols.filter (fun c => c == t)),
         f.rows.map (fun r => ⟨r.idx, selRow f.cols r.cells tgt⟩)⟩
  else .error "KeyError: missing columns"

/-- Lines 152-180, `format_report`: drop `.1` columns, rename, strip
time-of-day, select the ten report columns. -/
def format_report (f : Frame) : Except String Frame :=
  match dtDate (renameFrame (dropDupCols f)) with
  | .error e => .error e
  | .ok f3 => selectCols reportColumns f3

/-! ### Spec-side predicates and concrete test inputs -/

/-- Spec-side reading of the date window: the cell holds a date inside the
inclusive interval. -/
def InRangeP (sd ed : Int) (c : Cell) : Prop :=
  ∃ d, c = some (Value.date d) ∧ sd ≤ d ∧ d ≤ ed

/-- Recognizes the null-contact-date warnings in the log. -/
def isEmptyDateLog : LogEntry → Bool
  | LogEntry.emptyDate _ _ => true
  | LogEntry.invalid _ _ => false

/-- Spec-side reading of the duplicate-column marker as a name suffix. -/
def endsWithDotOne (s : String) : Bool := startsWithL ['1', '.'] s.data.reverse

/-- The required source columns of the spec (section 6), paired with the
presentation name each one receives from the Formatter's rename map. -/
def reqPairs : List (String × String) :=
  [("Contact Date", "Contact Date"),
   ("Assigned to Writing Fellow", "Writing Fellow"),
   ("Correspondence Method", "Type of contact"),
   ("Course (only the abbreviated form, e.g. PSY240)", "Course"),
   ("Contact Info", "Student Contact Info"),
   ("Professor (only last name)", "Professor"),
   ("Major", "Major"),
   ("Content/Topic of the Exchange", "Content/Topic of the Exchange"),
   ("Actions and/or Follow up", "Actions and/or Follow up")]

/-- The required source columns of the spec (section 6). -/
def requiredSourceCols : List String := reqPairs.map Prod.fst

/-- Does the parser accept this cell (so that `pd.to_datetime` would not
raise on it)? -/
def cellParses (p : String → Option Int) (c : Cell) : Bool :=
  match parseCell p c with
  | .ok _ => true
  | .error _ => false

/-- A one-column row holding a date, for the window-boundary tests. -/
def c1row (n : Nat) (d : Int) : Row := ⟨n, [some (Value.date d)]⟩

/-- Four rows: on the start bound, on the end bound, one day before the
start, one day after the end (window `[10, 20]`). -/
def c1rows : List Row := [c1row 0 10, c1row 1 20, c1row 2 9, c1row 3 21]

/-- A Formatter input holding every column the report needs, plus a
`.1`-suffixed duplicate and an unrelated extra column. -/
def exFmt : Frame :=
  ⟨["Contact Date", "Student Name", "Contact Info", "Major",
    "Course (only the abbreviated form, e.g. PSY240)", "Professor (only last name)",
    "Assigned to Writing Fellow", "Correspondence Method",
    "Content/Topic of the Exchange", "Actions and/or Follow up", "Major.1", "Extra"],
   [⟨0, [some (Value.date 5), some (Value.str "Doe, Jane"), some (Value.str "jd@x.edu"),
         some (Value.str "PSY"), some (Value.str "PSY240"), some (Value.str "Smith"),
         some (Value.str "Al B"), some (Value.str "E-Mail"), some (Value.str "thesis"),
         some (Value.str "follow up"), some (Value.str "dup"), some (Value.str "x")]⟩]⟩

/-- A Formatter input whose `Contact Info` source column is absent while a
column already named `Student Contact Info` is present. -/
def exNoContactInfo : Frame :=
  ⟨["Contact Date", "Student Name", "Student Contact Info", "Major",
    "Course (only the abbreviated form, e.g. PSY240)", "Professor (only last name)",
    "Assigned to Writing Fellow", "Correspondence Method",
    "Content/Topic of the Exchange", "Actions and/or Follow up"],
   [⟨0, [some (Value.date 5), some (Value.str "Doe, Jane"), some (Value.str "jd@x.edu"),
         some (Value.str "PSY"), some (Value.str "PSY240"), some (Value.str "Smith"),
         some (Value.str "Al B"), some (Value.str "E-Mail"), some (Value.str "thesis"),
         some (Value.str "follow up")]⟩]⟩

/-- A Formatter input carrying both the `Contact Info` source column and a
stray column already named `Student Contact Info`: after the rename two
columns bear the label `Student Contact Info`. -/
def exDupSCI : Frame :=
  ⟨["Contact Date", "Student Name", "Contact Info", "Student Contact Info", "Major",
    "Course (only the abbreviated form, e.g. PSY240)", "Professor (only last name)",
    "Assigned to Writing Fellow", "Correspondence Method",
    "Content/Topic of the Exchange", "Actions and/or Follow up"],
   [⟨0, [some (Value.date 5), some (Value.str "Doe, Jane"), some (Value.str "jd@x.edu"),
         some (Value.str "stray@x.edu"), some (Value.str "PSY"), some (Value.str "PSY240"),
         some (Value.str "Smith"), some (Value.str "Al B"), some (Value.str "E-Mail"),
         some (Value.str "thesis"), some (Value.str "follow up")]⟩]⟩

/-- What `format_report exDupSCI` returns: eleven columns — the selection
replicates the duplicated `Student Contact Info` label. -/
def gDup : Frame :=
  ⟨["Contact Date", "Student", "Student Contact Info", "Student Contact Info", "Major",
    "Course", "Professor", "Writing Fellow", "Type of contact",
    "Content/Topic of the Exchange", "Actions and/or Follow up"],
   [⟨0, [some (Value.date 5), some (Value.str "Doe, Jane"), some (Value.str "jd@x.edu"),
         some (Value.str "stray@x.edu"), some (Value.str "PSY"), some (Value.str "PSY240"),
         some (Value.str "Smith"), some (Value.str "Al B"), some (Value.str "E-Mail"),
         some (Value.str "thesis"), some (Value.str "follow up")]⟩]⟩

/-- A Formatter input missing both the `Major` source column and any column
named `Major`. -/
def exNoMajor : Frame :=
  ⟨["Contact Date", "Student Name", "Contact Info",
    "Course (only the abbreviated form, e.g. PSY240)", "Professor (only last name)",
    "Assigned to Writing Fellow", "Correspondence Method",
    "Content/Topic of the Exchange", "Actions and/or Follow up"],
   [⟨0, [some (Value.date 5), some (Value.str "Doe, Jane"), some (Value.str "jd@x.edu"),
         some (Value.str "PSY240"), some (Value.str "Smith"),
         some (Value.str "Al B"), some (Value.str "E-Mail"), some (Value.str "thesis"),
         some (Value.str "follow up")]⟩]⟩

/-- A frame whose second column name contains `.1` without ending in it. -/
def exDotTen : Frame :=
  ⟨["Contact Date", "Notes.10"], [⟨0, [some (Value.date 5), some (Value.str "n")]⟩]⟩

instance {ε α : Type _} [DecidableEq ε] [DecidableEq α] : DecidableEq (Except ε α) := fun a b =>
  match a, b with
  | .ok x, .ok y =>
    if h : x = y then .isTrue (by rw [h]) else .isFalse (fun hc => h (Except.ok.inj hc))
  | .error x, .error y =>
    if h : x = y then .isTrue (by rw [h]) else .isFalse (fun hc => h (Except.error.inj hc))
  | .ok _, .error _ => .isFalse (fun hc => Except.noConfusion hc)
  | .error _, .ok _ => .isFalse (fun hc => Except.noConfusion hc)

/-- The values of a column, top to bottom, read by label. -/
def colValuesF (f : Frame) (c : String) : List Cell :=
  f.rows.map (fun r => lookupCell f.cols r.cells c)

/-- A concrete date parser standing in for `pd.to_datetime`'s string
recognizer. -/
def pEx : String → Option Int := fun s =>
  if s = "2017-02-01" then some 100 else if s = "2017-02-15" then some 114 else none

/-- A collected table exercising every cleaning branch: a parseable string
date, a null date, a textual date matching the `[A-Z][a-z]` pattern, and an
out-of-window date. -/
def exClean : Frame :=
  ⟨["Contact Date", "Student Name", "Content/Topic of the Exchange", "Actions and/or Follow up",
    "Assigned to Writing Fellow", "Correspondence Method"],
   [⟨0, [some (Value.str "2017-02-01"), some (Value.str "doe, jane"),
         some (Value.str " same as above x"), none, some (Value.str "al b "),
         some (Value.str " e-mail ")]⟩,
    ⟨1, [none, some (Value.str "doe, jane"), none, none, none, none]⟩,
    ⟨2, [some (Value.str "Feb 15 2017"), some (Value.str "doe, jane"), none, none, none, none]⟩,
    ⟨3, [some (Value.date 300), some (Value.str "roe, r"), none, none, none, none]⟩]⟩

/-- What `clean_records 0 200 pEx exClean` returns: only the first row
survives, its fields normalized. -/
def gClean : Frame :=
  ⟨["Contact Date", "Student Name", "Content/Topic of the Exchange", "Actions and/or Follow up",
    "Assigned to Writing Fellow", "Correspondence Method"],
   [⟨0, [some (Value.date 100), some (Value.str "Doe, Jane"), some (Value.str " x"),
         some (Value.str ""), some (Value.str "Al B"), some (Value.str "E-Mail")]⟩]⟩

/-- The warnings of that same run: the null-date row and the textual-date
row, each logged once. -/
def logClean : List LogEntry :=
  [LogEntry.emptyDate 1 (some (Value.str "doe, jane")),
   LogEntry.invalid 2 (some (Value.str "doe, jane"))]

/-- A workbook with two per-student sheets (two rows each) and one
non-student sheet. -/
def exWb : List Sheet :=
  [⟨"Doe, Jane", ["Contact Date"], [[some (Value.str "a")], [some (Value.str "b")]]⟩,
   ⟨"Notes", ["Contact Date"], [[some (Value.str "zz")]]⟩,
   ⟨"Roe, Al", ["Contact Date", "Major"],
     [[some (Value.str "c"), none], [none, none]]⟩]

/-- A workbook none of whose sheet names contains a comma. -/
def exWbNoComma : List Sheet :=
  [⟨"Notes", ["A"], [[none]]⟩, ⟨"Summary", [], []⟩]

/-! ### Facts about the character-level string model -/

theorem charOfNat_toNat {n : Nat} (h : n < 55296) : (Char.ofNat n).toNat = n := by
  have hv : Nat.isValidChar n := Or.inl h
  simp [Char.ofNat, hv, Char.ofNatAux, Char.toNat, UInt32.toNat]

theorem toNat_toUpperA (c : Char) :
    (toUpperA c).toNat = if 97 ≤ c.toNat ∧ c.toNat ≤ 122 then c.toNat - 32 else c.toNat := by
  unfold toUpperA isLowerA
  by_cases h : 97 ≤ c.toNat ∧ c.toNat ≤ 122
  · rw [if_pos (decide_eq_true h), if_pos h]
    exact charOfNat_toNat (by omega)
  · rw [if_neg (fun hc => h (of_decide_eq_true hc)), if_neg h]

theorem toNat_toLowerA (c : Char) :
    (toLowerA c).toNat = if 65 ≤ c.toNat ∧ c.toNat ≤ 90 then c.toNat + 32 else c.toNat := by
  unfold toLowerA isUpperA
  by_cases h : 65 ≤ c.toNat ∧ c.toNat ≤ 90
  · rw [if_pos (decide_eq_true h), if_pos h]
    exact charOfNat_toNat (by omega)
  · rw [if_neg (fun hc => h (of_decide_eq_true hc)), if_neg h]

theorem isLowerA_toUpperA (c : Char) : isLowerA (toUpperA c) = false := by
  simp only [isLowerA, toNat_toUpperA, decide_eq_false_iff_not]
  split_ifs with h <;> omega

theorem isUpperA_toLowerA (c : Char) : isUpperA (toLowerA c) = false := by
  simp only [isUpperA, toNat_toLowerA, decide_eq_false_iff_not]
  split_ifs with h <;> omega

theorem toUpperA_of_not_lower {c : Char} (h : isLowerA c = false) : toUpperA c = c := by
  simp [toUpperA, h]

theorem toLowerA_of_not_upper {c : Char} (h : isUpperA c = false) : toLowerA c = c := by
  simp [toLowerA, h]

theorem toUpperA_idem (c : Char) : toUpperA (toUpperA c) = toUpperA c :=
  toUpperA_of_not_lower (isLowerA_toUpperA c)

theorem toLowerA_idem (c : Char) : toLowerA (toLowerA c) = toLowerA c :=
  toLowerA_of_not_upper (isUpperA_toLowerA c)

theorem isCasedA_toUpperA (c : Char) : isCasedA (toUpperA c) = isCasedA c := by
  simp only [isCasedA, isUpperA, isLowerA, toNat_toUpperA]
  split_ifs with h <;> rw [Bool.eq_iff_iff] <;>
    simp only [Bool.or_eq_true, decide_eq_true_eq] <;> omega

theorem isCasedA_toLowerA (c : Char) : isCasedA (toLowerA c) = isCasedA c := by
  simp only [isCasedA, isUpperA, isLowerA, toNat_toLowerA]
  split_ifs with h <;> rw [Bool.eq_iff_iff] <;>
    simp only [Bool.or_eq_true, decide_eq_true_eq] <;> omega

theorem isSpaceA_toUpperA (c : Char) : isSpaceA (toUpperA c) = isSpaceA c := by
  simp only [isSpaceA, toNat_toUpperA]
  split_ifs with h
  · simp only [decide_eq_decide]
    omega
  · rfl

theorem isSpaceA_toLowerA (c : Char) : isSpaceA (toLowerA c) = isSpaceA c := by
  simp only [isSpaceA, toNat_toLowerA]
  split_ifs with h
  · simp only [decide_eq_decide]
    omega
  · rfl

theorem isCasedA_stepT (fl : Bool) (c : Char) : isCasedA (stepT fl c) = isCasedA c := by
  unfold stepT
  split_ifs <;> simp [isCasedA_toUpperA, isCasedA_toLowerA]

theorem stepT_of_not_cased {c : Char} (h : isCasedA c = false) (fl : Bool) : stepT fl c = c := by
  simp [stepT, h]

theorem stepT_idem (fl : Bool) (c : Char) : stepT fl (stepT fl c) = stepT fl c := by
  by_cases h : isCasedA c = true
  · cases fl
    · simp [stepT, h, isCasedA_toUpperA, toUpperA_idem]
    · simp [stepT, h, isCasedA_toLowerA, toLowerA_idem]
  · rw [Bool.not_eq_true] at h
    rw [stepT_of_not_cased h, stepT_of_not_cased h]

theorem isSpaceA_stepT (fl : Bool) (c : Char) : isSpaceA (stepT fl c) = isSpaceA c := by
  unfold stepT
  split_ifs <;> simp [isSpaceA_toUpperA, isSpaceA_toLowerA]

theorem isCasedA_of_isSpaceA {c : Char} (h : isSpaceA c = true) : isCasedA c = false := by
  simp only [isSpaceA, decide_eq_true_eq] at h
  simp only [isCasedA, isUpperA, isLowerA, Bool.or_eq_false_iff, decide_eq_false_iff_not]
  omega

/-! ### Facts about `titleAux`, `flagA`, `stripL` -/

theorem titleAux_idem (l : List Char) : ∀ fl, titleAux fl (titleAux fl l) = titleAux fl l := by
  induction l with
  | nil => intro fl; rfl
  | cons c cs ih =>
    intro fl
    simp only [titleAux, stepT_idem, isCasedA_stepT, ih]

theorem titleAux_length (l : List Char) : ∀ fl, (titleAux fl l).length = l.length := by
  induction l with
  | nil => intro fl; rfl
  | cons c cs ih => intro fl; simp [titleAux, ih]

theorem titleAux_append (a : List Char) :
    ∀ fl b, titleAux fl (a ++ b) = titleAux fl a ++ titleAux (flagA fl a) b := by
  induction a with
  | nil => intro fl b; rfl
  | cons c cs ih =>
    intro fl b
    simp only [List.cons_append, titleAux, flagA, ih, List.append_eq]

theorem map_isSpaceA_titleAux (l : List Char) :
    ∀ fl, (titleAux fl l).map isSpaceA = l.map isSpaceA := by
  induction l with
  | nil => intro fl; rfl
  | cons c cs ih => intro fl; simp [titleAux, isSpaceA_stepT, ih]

theorem titleAux_all_space {l : List Char} (h : ∀ x ∈ l, isSpaceA x = true) :
    ∀ fl, titleAux fl l = l := by
  induction l with
  | nil => intro fl; rfl
  | cons c cs ih =>
    intro fl
    have hc : isCasedA c = false := isCasedA_of_isSpaceA (h c (by simp))
    simp only [titleAux, stepT_of_not_cased hc, hc]
    rw [ih (fun x hx => h x (by simp [hx]))]

theorem flagA_false_all_space {l : List Char} (h : ∀ x ∈ l, isSpaceA x = true) :
    flagA false l = false := by
  induction l with
  | nil => rfl
  | cons c cs ih =>
    have hc : isCasedA c = false := isCasedA_of_isSpaceA (h c (by simp))
    simp only [flagA, hc]
    exact ih (fun x hx => h x (by simp [hx]))

theorem dropWhile_head?_false {α : Type _} {p : α → Bool} {l : List α} {x : α}
    (h : (l.dropWhile p).head? = some x) : p x = false := by
  induction l with
  | nil => simp [List.dropWhile] at h
  | cons c cs ih =>
    by_cases hc : p c = true
    · rw [List.dropWhile_cons, if_pos hc] at h
      exact ih h
    · rw [List.dropWhile_cons, if_neg hc] at h
      simp only [List.head?_cons, Option.some.injEq] at h
      rw [← h]
      exact Bool.not_eq_true _ ▸ hc

theorem dropWhile_eq_self {α : Type _} {p : α → Bool} {l : List α}
    (h : ∀ x, l.head? = some x → p x = false) : l.dropWhile p = l := by
  cases l with
  | nil => rfl
  | cons c cs =>
    rw [List.dropWhile_cons, if_neg]
    rw [h c rfl]
    simp

theorem dropWhile_idem {α : Type _} (p : α → Bool) (l : List α) :
    (l.dropWhile p).dropWhile p = l.dropWhile p :=
  dropWhile_eq_self (fun _ hx => dropWhile_head?_false hx)

theorem stripL_decomp (l : List Char) :
    l.dropWhile isSpaceA =
      stripL l ++ ((l.dropWhile isSpaceA).reverse.takeWhile isSpaceA).reverse := by
  unfold stripL
  conv_lhs => rw [← List.reverse_reverse (l.dropWhile isSpaceA),
    ← List.takeWhile_append_dropWhile isSpaceA ((l.dropWhile isSpaceA).reverse)]
  rw [List.reverse_append]

theorem stripL_infix (l : List Char) :
    ∃ a b, l = a ++ stripL l ++ b ∧ (∀ x ∈ a, isSpaceA x = true) ∧
      (∀ x ∈ b, isSpaceA x = true) := by
  refine ⟨l.takeWhile isSpaceA, ((l.dropWhile isSpaceA).reverse.takeWhile isSpaceA).reverse,
    ?_, ?_, ?_⟩
  · conv_lhs => rw [← List.takeWhile_append_dropWhile isSpaceA l]
    rw [List.append_assoc]
    exact congrArg (l.takeWhile isSpaceA ++ ·) (stripL_decomp l)
  · exact fun x hx => List.mem_takeWhile_imp hx
  · intro x hx
    rw [List.mem_reverse] at hx
    exact List.mem_takeWhile_imp hx

theorem stripL_head?_false {l : List Char} {x : Char}
    (h : (stripL l).head? = some x) : isSpaceA x = false := by
  apply dropWhile_head?_false (l := l) (p := isSpaceA)
  rw [stripL_decomp l, List.head?_append, h]
  rfl

theorem stripL_getLast?_false {l : List Char} {x : Char}
    (h : (stripL l).getLast? = some x) : isSpaceA x = false := by
  rw [← List.head?_reverse] at h
  unfold stripL at h
  rw [List.reverse_reverse] at h
  exact dropWhile_head?_false h

theorem stripL_eq_self {l : List Char}
    (h1 : ∀ x, l.head? = some x → isSpaceA x = false)
    (h2 : ∀ x, l.getLast? = some x → isSpaceA x = false) : stripL l = l := by
  unfold stripL
  rw [dropWhile_eq_self h1, dropWhile_eq_self, List.reverse_reverse]
  intro x hx
  rw [List.head?_reverse] at hx
  exact h2 x hx

theorem stripL_idem (l : List Char) : stripL (stripL l) = stripL l :=
  stripL_eq_self (fun _ hx => stripL_head?_false hx) (fun _ hx => stripL_getLast?_false hx)

theorem titleAux_stripL_stripped (fl : Bool) (m : List Char) :
    stripL (titleAux fl (stripL m)) = titleAux fl (stripL m) := by
  have hmap := map_isSpaceA_titleAux (stripL m) fl
  apply stripL_eq_self
  · intro x hx
    have hh := congrArg List.head? hmap
    rw [List.head?_map, List.head?_map, hx] at hh
    cases hg : (stripL m).head? with
    | none =>
      rw [hg, Option.map_some', Option.map_none'] at hh
      exact Option.noConfusion hh
    | some y =>
      rw [hg, Option.map_some', Option.map_some'] at hh
      rw [Option.some.inj hh]
      exact stripL_head?_false hg
  · intro x hx
    have hh := congrArg List.getLast? hmap
    rw [List.getLast?_map, List.getLast?_map, hx] at hh
    cases hg : (stripL m).getLast? with
    | none =>
      rw [hg, Option.map_some', Option.map_none'] at hh
      exact Option.noConfusion hh
    | some y =>
      rw [hg, Option.map_some', Option.map_some'] at hh
      rw [Option.some.inj hh]
      exact stripL_getLast?_false hg

theorem normName_idem (s : String) : normName (normName s) = normName s := by
  show (⟨titleAux false (stripL (titleAux false (stripL s.data)))⟩ : String) =
    ⟨titleAux false (stripL s.data)⟩
  rw [titleAux_stripL_stripped, titleAux_idem]

theorem titleAux_stripL_title {u : List Char} (hu : titleAux false u = u) :
    titleAux false (stripL u) = stripL u := by
  obtain ⟨a, b, hdecomp, ha, hb⟩ := stripL_infix u
  have h1 : titleAux false u =
      a ++ (titleAux false (stripL u) ++ titleAux (flagA false (stripL u)) b) := by
    conv_lhs => rw [hdecomp, List.append_assoc]
    rw [titleAux_append, titleAux_all_space ha, flagA_false_all_space ha, titleAux_append]
  rw [hu] at h1
  have h2 : a ++ (stripL u ++ b) =
      a ++ (titleAux false (stripL u) ++ titleAux (flagA false (stripL u)) b) := by
    rw [← h1]
    conv_rhs => rw [hdecomp, List.append_assoc]
  have h3 := List.append_cancel_left h2
  exact (List.append_inj h3.symm (titleAux_length _ _)).1

theorem normMethod_idem (s : String) : normMethod (normMethod s) = normMethod s := by
  show (⟨stripL (titleAux false (stripL (titleAux false s.data)))⟩ : String) =
    ⟨stripL (titleAux false s.data)⟩
  rw [titleAux_stripL_title (titleAux_idem _ false), stripL_idem]

/-! ### Facts about substring search and phrase removal -/

theorem startsWithL_iff (p : List Char) :
    ∀ l, startsWithL p l = true ↔ ∃ t, l = p ++ t := by
  induction p with
  | nil =>
    intro l
    simp only [startsWithL, List.nil_append, true_iff]
    exact ⟨l, rfl⟩
  | cons x xs ih =>
    intro l
    cases l with
    | nil =>
      simp only [startsWithL, List.cons_append]
      constructor
      · intro h; cases h
      · rintro ⟨t, ht⟩; cases ht
    | cons c cs =>
      simp only [startsWithL, Bool.and_eq_true, beq_iff_eq, List.cons_append, List.cons.injEq,
        ih cs]
      constructor
      · rintro ⟨hx, t, ht⟩
        exact ⟨t, hx.symm, ht⟩
      · rintro ⟨t, hx, ht⟩
        exact ⟨hx.symm, t, ht⟩

theorem hasSubL_iff (p : List Char) :
    ∀ l, hasSubL p l = true ↔ ∃ a b, l = a ++ p ++ b := by
  intro l
  induction l with
  | nil =>
    simp only [hasSubL, startsWithL_iff]
    constructor
    · rintro ⟨t, ht⟩
      exact ⟨[], t, by simpa using ht⟩
    · rintro ⟨a, b, hab⟩
      rcases List.append_eq_nil.mp hab.symm with ⟨h1, h2⟩
      rcases List.append_eq_nil.mp h1 with ⟨h3, h4⟩
      exact ⟨[], by simp [h4]⟩
  | cons c cs ih =>
    simp only [hasSubL, Bool.or_eq_true, startsWithL_iff, ih]
    constructor
    · rintro (⟨t, ht⟩ | ⟨a, b, hab⟩)
      · exact ⟨[], t, by simpa using ht⟩
      · exact ⟨c :: a, b, by simp [hab]⟩
    · rintro ⟨a, b, hab⟩
      cases a with
      | nil => exact Or.inl ⟨b, by simpa using hab⟩
      | cons a0 as =>
        simp only [List.cons_append, List.cons.injEq] at hab
        exact Or.inr ⟨as, b, hab.2⟩

theorem hasSubL_of_parts {p m : List Char} (hm : hasSubL p m = true)
    {l a b : List Char} (hl : l = a ++ m ++ b) : hasSubL p l = true := by
  obtain ⟨x, y, hxy⟩ := (hasSubL_iff p m).mp hm
  exact (hasSubL_iff p l).mpr ⟨a ++ x, y ++ b, by rw [hl, hxy]; simp [List.append_assoc]⟩

theorem hasSubL_stripL {p l : List Char} (h : hasSubL p l = false) :
    hasSubL p (stripL l) = false := by
  cases hs : hasSubL p (stripL l) with
  | false => rfl
  | true =>
    obtain ⟨a, b, hd, _, _⟩ := stripL_infix l
    rw [hasSubL_of_parts hs hd] at h
    cases h

theorem rmPhraseAux_id :
    ∀ l : List Char, hasSubL phraseL l = false → ∀ n, rmPhraseAux n l = l := by
  intro l
  induction l with
  | nil => intro _ n; cases n <;> rfl
  | cons c cs ih =>
    intro h n
    rw [hasSubL, Bool.or_eq_false_iff] at h
    cases n with
    | zero => rfl
    | succ m =>
      rw [rmPhraseAux, if_neg (by rw [h.1]; simp)]
      rw [ih h.2 m]

theorem rmPhrase_id {l : List Char} (h : hasSubL phraseL l = false) : rmPhrase l = l :=
  rmPhraseAux_id l h _

theorem normTopic_idem_of_no_phrase {s : String} (h : hasSubL phraseL s.data = false) :
    normTopic (normTopic s) = normTopic s := by
  show (⟨rmPhrase (stripL (rmPhrase (stripL s.data)))⟩ : String) =
    ⟨rmPhrase (stripL s.data)⟩
  have h1 : hasSubL phraseL (stripL s.data) = false := hasSubL_stripL h
  rw [rmPhrase_id h1, stripL_idem, rmPhrase_id h1]

theorem fillCell_idem (c : Cell) : fillCell (fillCell c) = fillCell c := by
  cases c <;> rfl

/-! ### Facts about column lookup -/

theorem colIdx_lt {cols : List String} {t : String} :
    ∀ {i : Nat}, colIdx cols t = some i → i < cols.length := by
  induction cols with
  | nil => intro i h; cases h
  | cons c cs ih =>
    intro i h
    rw [colIdx] at h
    split_ifs at h with hc
    · cases h
      simp
    · simp only [Option.map_eq_some'] at h
      obtain ⟨j, hj, hji⟩ := h
      have := ih hj
      simp only [List.length_cons]
      omega

theorem colIdx_getD {cols : List String} {t : String} :
    ∀ {i : Nat}, colIdx cols t = some i → cols.getD i "" = t := by
  induction cols with
  | nil => intro i h; cases h
  | cons c cs ih =>
    intro i h
    rw [colIdx] at h
    split_ifs at h with hc
    · cases h
      simpa using hc
    · simp only [Option.map_eq_some'] at h
      obtain ⟨j, hj, hji⟩ := h
      rw [← hji, List.getD_cons_succ]
      exact ih hj

theorem colIdx_isSome_iff {cols : List String} {t : String} :
    (colIdx cols t).isSome = true ↔ t ∈ cols := by
  induction cols with
  | nil => simp [colIdx]
  | cons c cs ih =>
    rw [colIdx]
    by_cases hc : c = t
    · simp [hc]
    · rw [if_neg hc]
      have hmap : ((colIdx cs t).map (· + 1)).isSome = (colIdx cs t).isSome := by
        cases colIdx cs t <;> rfl
      rw [hmap, ih, List.mem_cons]
      constructor
      · exact Or.inr
      · rintro (h | h)
        · exact absurd h.symm hc
        · exact h

theorem colIdx_inj {cols : List String} {t u : String} {i : Nat}
    (ht : colIdx cols t = some i) (hu : colIdx cols u = some i) : t = u := by
  rw [← colIdx_getD ht, colIdx_getD hu]

theorem colIdx_eq_none {cols : List String} {t : String} (h : t ∉ cols) :
    colIdx cols t = none := by
  cases hc : colIdx cols t with
  | none => rfl
  | some i => exact absurd (colIdx_isSome_iff.mp (by rw [hc]; rfl)) h

theorem getD_tail (cells : List Cell) (j : Nat) :
    cells.tail.getD j none = cells.getD (j + 1) none := by
  cases cells with
  | nil => rfl
  | cons c rest => rw [List.tail_cons, List.getD_cons_succ]

theorem lookupCell_eq {cols : List String} {t : String} :
    ∀ {i : Nat}, colIdx cols t = some i → ∀ cells, lookupCell cols cells t = cells.getD i none := by
  induction cols with
  | nil => intro i h; cases h
  | cons c cs ih =>
    intro i h cells
    rw [colIdx] at h
    rw [lookupCell]
    split_ifs at h ⊢ with hc
    · cases h
      rfl
    · simp only [Option.map_eq_some'] at h
      obtain ⟨j, hj, hji⟩ := h
      rw [ih hj, ← hji, getD_tail]

theorem lookupCell_of_none {cols : List String} {t : String} (h : colIdx cols t = none) :
    ∀ cells, lookupCell cols cells t = none := by
  induction cols with
  | nil => intro cells; rfl
  | cons c cs ih =>
    intro cells
    rw [colIdx] at h
    split_ifs at h with hc
    · rw [lookupCell, if_neg hc]
      exact ih (by simpa using h) _
  -- the positive branch is impossible: `some 0 = none`

theorem lookupCell_map_self (f : String → Cell) :
    ∀ (tgt : List String) (t : String), t ∈ tgt → lookupCell tgt (tgt.map f) t = f t := by
  intro tgt
  induction tgt with
  | nil => intro t ht; cases ht
  | cons c cs ih =>
    intro t ht
    rw [List.map_cons, lookupCell]
    by_cases hc : c = t
    · rw [if_pos hc, List.getD_cons_zero, hc]
    · rw [if_neg hc, List.tail_cons]
      rcases List.mem_cons.mp ht with h | h
      · exact absurd h.symm hc
      · exact ih t h

theorem toColumns_lookup {src : List String} {cells : List Cell} {tgt : List String}
    {t : String} (ht : t ∈ tgt) :
    lookupCell tgt (toColumns src cells tgt) t = lookupCell src cells t :=
  lookupCell_map_self (lookupCell src cells) tgt t ht

/-! ### Facts about `mapE`, `parseRow`, `mapCol` and the row filters -/

theorem mapE_ok_forall₂ {α β : Type _} {f : α → Except String β} :
    ∀ {l : List α} {l' : List β}, mapE f l = .ok l' →
      List.Forall₂ (fun a b => f a = .ok b) l l' := by
  intro l
  induction l with
  | nil =>
    intro l' h
    rw [mapE] at h
    cases h
    exact List.Forall₂.nil
  | cons a as ih =>
    intro l' h
    rw [mapE] at h
    cases hf : f a with
    | error e => rw [hf] at h; cases h
    | ok b =>
      rw [hf] at h
      cases hm : mapE f as with
      | error e => rw [hm] at h; cases h
      | ok bs =>
        rw [hm] at h
        cases h
        exact List.Forall₂.cons hf (ih hm)

theorem forall₂_mem_right {α β : Type _} {R : α → β → Prop} :
    ∀ {l : List α} {l' : List β}, List.Forall₂ R l l' → ∀ b ∈ l', ∃ a ∈ l, R a b := by
  intro l l' h
  induction h with
  | nil => intro b hb; cases hb
  | cons hr ht ih =>
    intro b hb
    rcases List.mem_cons.mp hb with h | h
    · exact ⟨_, List.mem_cons_self _ _, h ▸ hr⟩
    · obtain ⟨a, ha, har⟩ := ih b h
      exact ⟨a, List.mem_cons_of_mem _ ha, har⟩

theorem forall₂_map_eq {α β γ : Type _} {R : α → β → Prop} {g : α → γ} {g' : β → γ}
    (hg : ∀ a b, R a b → g' b = g a) :
    ∀ {l : List α} {l' : List β}, List.Forall₂ R l l' → l'.map g' = l.map g := by
  intro l l' h
  induction h with
  | nil => rfl
  | cons hr _ ih => simp only [List.map_cons, ih, hg _ _ hr]

theorem mapE_ok_of_all {α β : Type _} {f : α → Except String β} :
    ∀ {l : List α}, (∀ a ∈ l, ∃ b, f a = .ok b) → ∃ l', mapE f l = .ok l' := by
  intro l
  induction l with
  | nil => intro _; exact ⟨[], rfl⟩
  | cons a as ih =>
    intro h
    obtain ⟨b, hb⟩ := h a (List.mem_cons_self _ _)
    obtain ⟨bs, hbs⟩ := ih (fun x hx => h x (List.mem_cons_of_mem _ hx))
    exact ⟨b :: bs, by rw [mapE, hb, hbs]⟩

theorem parseRow_ok_parts {p : String → Option Int} {ci : Nat} {r r' : Row}
    (h : parseRow p ci r = .ok r') :
    r'.idx = r.idx ∧ ∃ c, parseCell p (cellAt ci r) = .ok c ∧ r'.cells = r.cells.set ci c := by
  unfold parseRow at h
  cases hp : parseCell p (cellAt ci r) with
  | error e => rw [hp] at h; cases h
  | ok c =>
    rw [hp] at h
    cases h
    exact ⟨rfl, c, rfl, rfl⟩

theorem cellAt_set_ne {cells : List Cell} {i j : Nat} (hij : i ≠ j) (v : Cell) :
    (cells.set i v).getD j none = cells.getD j none := by
  rw [List.getD_eq_getElem?_getD, List.getD_eq_getElem?_getD, List.getElem?_set_ne hij]

theorem cellAt_set_self {cells : List Cell} {i : Nat} {v : Cell} (hv : v = none → False)
    (hi : i < cells.length) : (cells.set i v).getD i none = v := by
  rw [List.getD_eq_getElem?_getD, List.getElem?_set_self hi]
  rfl

theorem getD_of_length_le {cells : List Cell} {i : Nat} (h : cells.length ≤ i) :
    cells.getD i none = none := by
  rw [List.getD_eq_getElem?_getD, List.getElem?_eq_none h]
  rfl

theorem mem_mapCol {i : Nat} {g : Cell → Cell} {rows : List Row} {r' : Row} :
    r' ∈ mapCol i g rows ↔ ∃ r ∈ rows, r' = ⟨r.idx, r.cells.set i (g (cellAt i r))⟩ := by
  unfold mapCol
  rw [List.mem_map]
  constructor
  · rintro ⟨r, hr, rfl⟩; exact ⟨r, hr, rfl⟩
  · rintro ⟨r, hr, rfl⟩; exact ⟨r, hr, rfl⟩

theorem mapCol_idx (i : Nat) (g : Cell → Cell) (rows : List Row) :
    (mapCol i g rows).map Row.idx = rows.map Row.idx := by
  unfold mapCol
  rw [List.map_map]
  rfl

theorem cellAt_mapColRow_ne {i j : Nat} (hij : i ≠ j) (g : Cell → Cell) (r : Row) :
    cellAt j ⟨r.idx, r.cells.set i (g (cellAt i r))⟩ = cellAt j r :=
  cellAt_set_ne hij _

theorem cellAt_mapColRow_self {i : Nat} {g : Cell → Cell} (hg : g none = none) (r : Row) :
    cellAt i ⟨r.idx, r.cells.set i (g (cellAt i r))⟩ = g (cellAt i r) := by
  show (r.cells.set i (g (cellAt i r))).getD i none = g (cellAt i r)
  by_cases hi : i < r.cells.length
  · by_cases hv : g (cellAt i r) = none
    · rw [List.getD_eq_getElem?_getD, List.getElem?_set_self hi, hv]
      rfl
    · exact cellAt_set_self (fun hc => hv hc) hi
  · have hlen : r.cells.length ≤ i := by omega
    rw [List.set_eq_of_length_le hlen]
    show cellAt i r = g (cellAt i r)
    have : cellAt i r = none := getD_of_length_le hlen
    rw [this, hg]

theorem foldlFilter_sublist (xs : List Row) :
    ∀ acc : List Row,
      (xs.foldl (fun a r => a.filter (fun x => x.idx != r.idx)) acc).Sublist acc := by
  induction xs with
  | nil => intro acc; exact List.Sublist.refl acc
  | cons x xs ih =>
    intro acc
    rw [List.foldl_cons]
    exact (ih _).trans (List.filter_sublist acc)

theorem mem_foldlFilter {xs : List Row} :
    ∀ {acc : List Row} {r' : Row},
      r' ∈ xs.foldl (fun a r => a.filter (fun x => x.idx != r.idx)) acc ↔
        (r' ∈ acc ∧ ∀ r ∈ xs, r'.idx ≠ r.idx) := by
  induction xs with
  | nil => intro acc r'; simp
  | cons x xs ih =>
    intro acc r'
    rw [List.foldl_cons, ih, List.mem_filter]
    simp only [bne_iff_ne, ne_eq, List.mem_cons]
    constructor
    · rintro ⟨⟨h1, h2⟩, h3⟩
      refine ⟨h1, fun r hr => ?_⟩
      rcases hr with rfl | hr
      · exact h2
      · exact h3 r hr
    · rintro ⟨h1, h2⟩
      exact ⟨⟨h1, h2 x (Or.inl rfl)⟩, fun r hr => h2 r (Or.inr hr)⟩

/-! ### Shape lemmas for `findCols`, `clean_records` and the Formatter steps -/

theorem findCols_eq {cols : List String} {ix : ColIx} (h : findCols cols = some ix) :
    colIdx cols "Contact Date" = some ix.ci ∧ colIdx cols "Student Name" = some ix.si ∧
    colIdx cols "Content/Topic of the Exchange" = some ix.ti ∧
    colIdx cols "Actions and/or Follow up" = some ix.ai ∧
    colIdx cols "Assigned to Writing Fellow" = some ix.wi ∧
    colIdx cols "Correspondence Method" = some ix.mi := by
  unfold findCols at h
  simp only [Option.bind_eq_bind, Option.bind_eq_some, Option.pure_def,
    Option.some.injEq] at h
  obtain ⟨ci, h1, si, h2, ti, h3, ai, h4, wi, h5, mi, h6, hix⟩ := h
  subst hix
  exact ⟨h1, h2, h3, h4, h5, h6⟩

theorem findCols_of_mem {cols : List String}
    (h1 : "Contact Date" ∈ cols) (h2 : "Student Name" ∈ cols)
    (h3 : "Content/Topic of the Exchange" ∈ cols) (h4 : "Actions and/or Follow up" ∈ cols)
    (h5 : "Assigned to Writing Fellow" ∈ cols) (h6 : "Correspondence Method" ∈ cols) :
    ∃ ix, findCols cols = some ix := by
  obtain ⟨ci, hci⟩ := Option.isSome_iff_exists.mp (colIdx_isSome_iff.mpr h1)
  obtain ⟨si, hsi⟩ := Option.isSome_iff_exists.mp (colIdx_isSome_iff.mpr h2)
  obtain ⟨ti, hti⟩ := Option.isSome_iff_exists.mp (colIdx_isSome_iff.mpr h3)
  obtain ⟨ai, hai⟩ := Option.isSome_iff_exists.mp (colIdx_isSome_iff.mpr h4)
  obtain ⟨wi, hwi⟩ := Option.isSome_iff_exists.mp (colIdx_isSome_iff.mpr h5)
  obtain ⟨mi, hmi⟩ := Option.isSome_iff_exists.mp (colIdx_isSome_iff.mpr h6)
  refine ⟨⟨ci, si, ti, ai, wi, mi⟩, ?_⟩
  unfold findCols
  rw [hci, hsi, hti, hai, hwi, hmi]
  rfl

theorem clean_records_ok {sd ed : Int} {p : String → Option Int} {f g : Frame}
    {log : List LogEntry} (h : clean_records sd ed p f = .ok (g, log)) :
    ∃ ix rows3, findCols f.cols = some ix ∧
      mapE (parseRow p ix.ci) (dropInv ix.ci f.rows) = .ok rows3 ∧
      g = ⟨f.cols, filterDates sd ed ix.ci (textPipeline ix rows3)⟩ ∧
      log = cleanLog ix f.rows := by
  unfold clean_records at h
  split at h
  · cases h
  · rename_i ix hfc
    split at h
    · cases h
    · rename_i rows3 hm
      injection h with h'
      exact ⟨ix, rows3, hfc, hm, (congrArg Prod.fst h').symm, (congrArg Prod.snd h').symm⟩

theorem inRangeB_iff {sd ed : Int} {c : Cell} : inRangeB sd ed c = true ↔ InRangeP sd ed c := by
  cases c with
  | none =>
    constructor
    · intro h; cases h
    · rintro ⟨d, hd, _⟩; cases hd
  | some v =>
    cases v with
    | str s =>
      constructor
      · intro h; cases h
      · rintro ⟨d, hd, _⟩; cases hd
    | date d =>
      constructor
      · intro h
        exact ⟨d, rfl, (of_decide_eq_true h).1, (of_decide_eq_true h).2⟩
      · rintro ⟨d', hd, hd1, hd2⟩
        cases hd
        exact decide_eq_true ⟨hd1, hd2⟩

theorem dtDate_ok {f f3 : Frame} (h : dtDate f = .ok f3) :
    f3.cols = f.cols ∧ ∃ i, colIdx f.cols "Contact Date" = some i ∧
      f3.rows = mapCol i dtCell f.rows ∧ ∀ r ∈ f.rows, isDateOrNull (cellAt i r) = true := by
  unfold dtDate at h
  split at h
  · cases h
  · rename_i i hc
    split_ifs at h with hall
    cases h
    exact ⟨rfl, i, hc, rfl, List.all_eq_true.mp hall⟩

theorem selectCols_ok {tgt : List String} {f g : Frame} (h : selectCols tgt f = .ok g) :
    g = ⟨tgt.flatMap (fun t => f.cols.filter (fun c => c == t)),
         f.rows.map (fun r => ⟨r.idx, selRow f.cols r.cells tgt⟩)⟩ ∧
      ∀ t ∈ tgt, (colIdx f.cols t).isSome = true := by
  unfold selectCols at h
  split_ifs at h with hall
  cases h
  exact ⟨rfl, List.all_eq_true.mp hall⟩

theorem length_cellsOfLabel (t : String) :
    ∀ (cols : List String) (cells : List Cell),
      (cellsOfLabel cols cells t).length = (cols.filter (fun c => c == t)).length := by
  intro cols
  induction cols with
  | nil => intro cells; rfl
  | cons c cs ih =>
    intro cells
    by_cases hc : c = t
    · rw [cellsOfLabel, if_pos hc, List.filter_cons_of_pos (by simp [hc])]
      simp only [List.length_cons, ih]
    · rw [cellsOfLabel, if_neg hc, List.filter_cons_of_neg (by simp [hc])]
      exact ih cells.tail

theorem cellsOfLabel_head (t : String) :
    ∀ (cols : List String) (cells : List Cell),
      (cellsOfLabel cols cells t).getD 0 none = lookupCell cols cells t := by
  intro cols
  induction cols with
  | nil => intro cells; rfl
  | cons c cs ih =>
    intro cells
    by_cases hc : c = t
    · rw [cellsOfLabel, if_pos hc, lookupCell, if_pos hc, List.getD_cons_zero]
    · rw [cellsOfLabel, if_neg hc, lookupCell, if_neg hc]
      exact ih cells.tail

theorem lookup_skip_block {t : String} :
    ∀ (A : List String) (a : List Cell) (B : List String) (b : List Cell),
      (∀ x ∈ A, x ≠ t) → A.length = a.length →
      lookupCell (A ++ B) (a ++ b) t = lookupCell B b t := by
  intro A
  induction A with
  | nil =>
    intro a B b _ hlen
    have ha : a = [] := List.length_eq_zero.mp hlen.symm
    subst ha
    rfl
  | cons x A' ih =>
    intro a B b hne hlen
    cases a with
    | nil => simp at hlen
    | cons a0 a' =>
      show lookupCell (x :: (A' ++ B)) (a0 :: (a' ++ b)) t = lookupCell B b t
      rw [lookupCell, if_neg (hne x (List.mem_cons_self _ _)), List.tail_cons]
      exact ih a' B b (fun y hy => hne y (List.mem_cons_of_mem _ hy)) (by simpa using hlen)

theorem filter_label_cons_of_mem {cols : List String} {t : String} (h : t ∈ cols) :
    ∃ A', cols.filter (fun c => c == t) = t :: A' := by
  cases hf : cols.filter (fun c => c == t) with
  | nil =>
    have := List.filter_eq_nil_iff.mp hf t h
    simp at this
  | cons x xs =>
    have hx : x ∈ cols.filter (fun c => c == t) := by rw [hf]; exact List.mem_cons_self _ _
    have := (List.mem_filter.mp hx).2
    rw [beq_iff_eq] at this
    exact ⟨xs, by rw [this]⟩

theorem lookupCell_selRow (cols : List String) (cells : List Cell) (t : String) :
    ∀ tgt : List String, t ∈ tgt →
      lookupCell (tgt.flatMap (fun u => cols.filter (fun c => c == u)))
        (selRow cols cells tgt) t = lookupCell cols cells t := by
  intro tgt
  induction tgt with
  | nil => intro h; cases h
  | cons u us ih =>
    intro h
    unfold selRow
    rw [List.flatMap_cons, List.flatMap_cons]
    by_cases hut : u = t
    · rw [hut]
      by_cases htc : t ∈ cols
      · obtain ⟨A', hA⟩ := filter_label_cons_of_mem htc
        have hlen : (cellsOfLabel cols cells t).length = A'.length + 1 := by
          rw [length_cellsOfLabel, hA]
          rfl
        cases ha : cellsOfLabel cols cells t with
        | nil => rw [ha] at hlen; simp at hlen
        | cons a0 a' =>
          rw [hA, List.cons_append, List.cons_append, lookupCell, if_pos rfl,
            List.getD_cons_zero]
          have hh := cellsOfLabel_head t cols cells
          rw [ha, List.getD_cons_zero] at hh
          exact hh
      · have hfil : cols.filter (fun c => c == t) = [] :=
          List.filter_eq_nil_iff.mpr (fun c hc => by
            simp only [beq_iff_eq]
            intro he
            exact htc (he ▸ hc))
        have hcl : cellsOfLabel cols cells t = [] := by
          have hl := length_cellsOfLabel t cols cells
          rw [hfil] at hl
          exact List.length_eq_zero.mp hl
        rw [hfil, hcl, List.nil_append, List.nil_append]
        have hnot : t ∉ us.flatMap (fun u => cols.filter (fun c => c == u)) := by
          intro hmem
          obtain ⟨u', -, hu'⟩ := List.mem_flatMap.mp hmem
          exact htc (List.mem_filter.mp hu').1
        rw [lookupCell_of_none (colIdx_eq_none hnot),
          lookupCell_of_none (colIdx_eq_none htc)]
    · have htus : t ∈ us := by
        rcases List.mem_cons.mp h with he | hm
        · exact absurd he.symm hut
        · exact hm
      have hne : ∀ x ∈ cols.filter (fun c => c == u), x ≠ t := by
        intro x hx he
        have hxu := (List.mem_filter.mp hx).2
        rw [beq_iff_eq] at hxu
        exact hut (hxu ▸ he)
      rw [lookup_skip_block _ _ _ _ hne (length_cellsOfLabel u cols cells).symm]
      exact ih htus

theorem format_report_ok {f g : Frame} (h : format_report f = .ok g) :
    ∃ f3, dtDate (renameFrame (dropDupCols f)) = .ok f3 ∧ selectCols reportColumns f3 = .ok g := by
  unfold format_report at h
  split at h
  · cases h
  · rename_i f3 hdt
    exact ⟨f3, hdt, h⟩

theorem lookupCell_dropRow {t : String} (ht : hasDotOne t = false) :
    ∀ (cols : List String) (cells : List Cell),
      lookupCell (cols.filter (fun c => !hasDotOne c)) (dropRow cols cells) t =
        lookupCell cols cells t := by
  intro cols
  induction cols with
  | nil => intro cells; rfl
  | cons c cs ih =>
    intro cells
    by_cases hc : hasDotOne c = true
    · rw [List.filter_cons_of_neg (by simp [hc]), dropRow, if_pos hc]
      rw [lookupCell, if_neg (fun hct => by rw [hct, ht] at hc; cases hc)]
      exact ih cells.tail
    · rw [List.filter_cons_of_pos (by simp [hc]), dropRow,
        if_neg (by simpa using hc)]
      rw [lookupCell, lookupCell]
      by_cases hct : c = t
      · rw [if_pos hct, if_pos hct, List.getD_cons_zero]
      · rw [if_neg hct, if_neg hct, List.tail_cons]
        exact ih cells.tail

theorem lookupCell_map_rename {t : String} (hfix : renameCol t = t)
    (hpre : ∀ c, renameCol c = t → c = t) :
    ∀ (cols : List String) (cells : List Cell),
      lookupCell (cols.map renameCol) cells t = lookupCell cols cells t := by
  intro cols
  induction cols with
  | nil => intro cells; rfl
  | cons c cs ih =>
    intro cells
    rw [List.map_cons, lookupCell, lookupCell]
    by_cases hct : c = t
    · rw [if_pos (by rw [hct, hfix]), if_pos hct]
    · rw [if_neg (fun hr => hct (hpre c hr)), if_neg hct]
      exact ih cells.tail

theorem renameCol_preimage_req {s t : String} (hst : (s, t) ∈ reqPairs) :
    ∀ c, renameCol c = t → c = s ∨ c = t := by
  fin_cases hst <;>
    (intro c hh
     unfold renameCol at hh
     split_ifs at hh with h1 h2 h3 h4 h5 h6 <;>
       first
         | (left; assumption)
         | (right; exact hh)
         | (exact absurd hh (by decide)))

theorem req_pairs_snd : ∀ q ∈ reqPairs, renameCol q.1 = q.2 ∧ q.2 ∈ reportColumns := by
  decide

theorem req_mem_pairs : ∀ s ∈ requiredSourceCols, (s, renameCol s) ∈ reqPairs := by
  decide

theorem lookupCell_eq_cellAt {cols : List String} {t : String} {i : Nat}
    (h : colIdx cols t = some i) (r : Row) : lookupCell cols r.cells t = cellAt i r :=
  lookupCell_eq h r.cells

/-- Every row of a successful `clean_records` output carries an in-window
date in its (first) `Contact Date` column: the final filter of the cleaner
guarantees it. -/
theorem clean_output_in_range {sd ed : Int} {p : String → Option Int} {f g : Frame}
    {log : List LogEntry} (h : clean_records sd ed p f = .ok (g, log)) :
    ∀ r ∈ g.rows, InRangeP sd ed (lookupCell g.cols r.cells "Contact Date") := by
  intro r hrg
  obtain ⟨ix, rows3, hfc, hm, hg, _⟩ := clean_records_ok h
  have hci := (findCols_eq hfc).1
  subst hg
  have hrg' : r ∈ filterDates sd ed ix.ci (textPipeline ix rows3) := hrg
  unfold filterDates at hrg'
  have hb := (List.mem_filter.mp hrg').2
  show InRangeP sd ed (lookupCell f.cols r.cells "Contact Date")
  rw [lookupCell_eq_cellAt hci]
  exact inRangeB_iff.mp hb

/-- The only source label the rename map sends to `Contact Date` is
`Contact Date` itself. -/
theorem renameCol_contact {c : String} (h : renameCol c = "Contact Date") :
    c = "Contact Date" :=
  (renameCol_preimage_req (by decide) c h).elim id id

/-- Through every Formatter stage, each output row's `Contact Date` value is
the `.dt.date` image of the `Contact Date` value of some input row. -/
theorem format_report_contact_values {f g : Frame} (h : format_report f = .ok g) :
    ∀ r2 ∈ g.rows, ∃ r ∈ f.rows,
      lookupCell g.cols r2.cells "Contact Date" =
        dtCell (lookupCell f.cols r.cells "Contact Date") := by
  obtain ⟨f3, hdt, hsel⟩ := format_report_ok h
  obtain ⟨hg, _⟩ := selectCols_ok hsel
  obtain ⟨hc3, i, hi, hrows3, _⟩ := dtDate_ok hdt
  subst hg
  intro r2 hr2
  have hr2' : r2 ∈ f3.rows.map
      (fun r => ⟨r.idx, selRow f3.cols r.cells reportColumns⟩) := hr2
  rw [List.mem_map] at hr2'
  obtain ⟨r3, hr3, hr2eq⟩ := hr2'
  rw [hrows3, mem_mapCol] at hr3
  obtain ⟨r2', hr2'mem, hr3eq⟩ := hr3
  have hr2'' : r2' ∈ f.rows.map (fun r => ⟨r.idx, dropRow f.cols r.cells⟩) := hr2'mem
  rw [List.mem_map] at hr2''
  obtain ⟨r, hr, hr2'eq⟩ := hr2''
  refine ⟨r, hr, ?_⟩
  subst hr2eq
  show lookupCell (reportColumns.flatMap (fun u => f3.cols.filter (fun c => c == u)))
    (selRow f3.cols r3.cells reportColumns) "Contact Date" = _
  rw [lookupCell_selRow f3.cols r3.cells "Contact Date" reportColumns (by decide)]
  have hi3 : colIdx f3.cols "Contact Date" = some i := by rw [hc3]; exact hi
  rw [lookupCell_eq_cellAt hi3]
  subst hr3eq
  rw [cellAt_mapColRow_self (show dtCell none = none from rfl) r2']
  congr 1
  have e1 : cellAt i r2' =
      lookupCell (renameFrame (dropDupCols f)).cols r2'.cells "Contact Date" :=
    (lookupCell_eq_cellAt hi r2').symm
  rw [e1]
  subst hr2'eq
  show lookupCell ((f.cols.filter (fun x => !hasDotOne x)).map renameCol)
    (dropRow f.cols r.cells) "Contact Date" = _
  rw [lookupCell_map_rename (by decide) (fun c hc => renameCol_contact hc),
    lookupCell_dropRow (by decide)]

/-! ### Claim C7: idempotence of the per-field text normalization -/

/-- C7, counterexample: the topic-field normalization (trim, then remove the
placeholder phrase) is not idempotent.  On `"same as above x"` the first
application yields `" x"` — removing the phrase exposes a leading space that
the already-performed trim can no longer see — and a second application
yields `"x"`. -/
theorem C7_counterexample :
    normTopic (normTopic "same as above x") ≠ normTopic "same as above x" := by
  decide

/-- C7 (amended): the Cleaner's per-field normalizations are idempotent for
the student-name and assigned-staff fields (trim then title-case), for the
contact-type field (title-case then trim) and for the missing-free-text fill;
the topic-field normalization (trim then placeholder removal) is idempotent
on every value whose text does not contain the placeholder phrase, but not in
general. -/
theorem C7_normalization_idempotent_amended :
    (∀ s : String, normName (normName s) = normName s) ∧
    (∀ s : String, normMethod (normMethod s) = normMethod s) ∧
    (∀ c : Cell, fillCell (fillCell c) = fillCell c) ∧
    (∀ s : String, hasSubL phraseL s.data = false → normTopic (normTopic s) = normTopic s) :=
  ⟨normName_idem, normMethod_idem, fillCell_idem, fun _ h => normTopic_idem_of_no_phrase h⟩

/-- C7, witness: the amended statement evaluated on concrete field values. -/
theorem C7_witness :
    normName (normName "  doe, jANE ") = normName "  doe, jANE " ∧
    normMethod (normMethod " e-mail visit ") = normMethod " e-mail visit " ∧
    hasSubL phraseL "  thesis statements ".data = false ∧
    normTopic (normTopic "  thesis statements ") = normTopic "  thesis statements " :=
  ⟨C7_normalization_idempotent_amended.1 _,
   C7_normalization_idempotent_amended.2.1 _,
   by decide,
   C7_normalization_idempotent_amended.2.2.2 _ (by decide)⟩

/-! ### Row provenance through the cleaning pipeline -/

theorem colIx_distinct {cols : List String} {ix : ColIx} (h : findCols cols = some ix) :
    ix.si ≠ ix.ci ∧ ix.ti ≠ ix.si ∧ ix.ai ≠ ix.si ∧ ix.wi ≠ ix.si ∧ ix.mi ≠ ix.si := by
  obtain ⟨hci, hsi, hti, hai, hwi, hmi⟩ := findCols_eq h
  refine ⟨?_, ?_, ?_, ?_, ?_⟩
  · intro he; rw [he] at hsi; exact absurd (colIdx_inj hsi hci) (by decide)
  · intro he; rw [he] at hti; exact absurd (colIdx_inj hti hsi) (by decide)
  · intro he; rw [he] at hai; exact absurd (colIdx_inj hai hsi) (by decide)
  · intro he; rw [he] at hwi; exact absurd (colIdx_inj hwi hsi) (by decide)
  · intro he; rw [he] at hmi; exact absurd (colIdx_inj hmi hsi) (by decide)

theorem textPipeline_mem {ix : ColIx} {rows : List Row} {r' : Row}
    (h : r' ∈ textPipeline ix rows)
    (hts : ix.ti ≠ ix.si) (has : ix.ai ≠ ix.si) (hws : ix.wi ≠ ix.si) (hms : ix.mi ≠ ix.si) :
    ∃ r3 ∈ rows, r'.idx = r3.idx ∧ cellAt ix.si r' = nameCell (cellAt ix.si r3) := by
  unfold textPipeline at h
  rw [mem_mapCol] at h
  obtain ⟨r7, h7, rfl⟩ := h
  rw [mem_mapCol] at h7
  obtain ⟨r6, h6, rfl⟩ := h7
  rw [mem_mapCol] at h6
  obtain ⟨r5, h5, rfl⟩ := h6
  rw [mem_mapCol] at h5
  obtain ⟨r4b, h4b, rfl⟩ := h5
  rw [mem_mapCol] at h4b
  obtain ⟨r4, h4, rfl⟩ := h4b
  rw [mem_mapCol] at h4
  obtain ⟨r3, h3, rfl⟩ := h4
  refine ⟨r3, h3, rfl, ?_⟩
  rw [cellAt_mapColRow_ne hms, cellAt_mapColRow_ne hws, cellAt_mapColRow_ne hts,
    cellAt_mapColRow_ne has, cellAt_mapColRow_ne hts]
  exact cellAt_mapColRow_self rfl r3

theorem textPipeline_idx_mem {ix : ColIx} {rows : List Row} {r' : Row}
    (h : r' ∈ textPipeline ix rows) : ∃ r3 ∈ rows, r'.idx = r3.idx := by
  unfold textPipeline at h
  rw [mem_mapCol] at h
  obtain ⟨r7, h7, rfl⟩ := h
  rw [mem_mapCol] at h7
  obtain ⟨r6, h6, rfl⟩ := h7
  rw [mem_mapCol] at h6
  obtain ⟨r5, h5, rfl⟩ := h6
  rw [mem_mapCol] at h5
  obtain ⟨r4b, h4b, rfl⟩ := h5
  rw [mem_mapCol] at h4b
  obtain ⟨r4, h4, rfl⟩ := h4b
  rw [mem_mapCol] at h4
  obtain ⟨r3, h3, rfl⟩ := h4
  exact ⟨r3, h3, rfl⟩

/-! ### Claim C3: null contact dates -/

/-- C3: in a successful cleaning run, no row of the cleaned table has a null
`Contact Date`; the `emptyDate` warnings of the log are exactly one warning
per null-date input row, in input order, each carrying that row's index and
`Student Name` cell; and no row of a subsequently formatted (Reported) table
has a null `Contact Date` either. -/
theorem C3_null_dates_dropped_and_logged :
    ∀ (sd ed : Int) (p : String → Option Int) (f g : Frame) (log : List LogEntry),
      clean_records sd ed p f = .ok (g, log) →
      (∀ r ∈ g.rows, lookupCell g.cols r.cells "Contact Date" ≠ none) ∧
      log.filter isEmptyDateLog =
        (f.rows.filter (fun r => (lookupCell f.cols r.cells "Contact Date").isNone)).map
          (fun r => LogEntry.emptyDate r.idx (lookupCell f.cols r.cells "Student Name")) ∧
      (∀ g2 : Frame, format_report g = .ok g2 →
        ∀ r2 ∈ g2.rows, lookupCell g2.cols r2.cells "Contact Date" ≠ none) := by
  intro sd ed p f g log h
  refine ⟨?_, ?_, ?_⟩
  · intro r hr
    obtain ⟨d, hd, -, -⟩ := clean_output_in_range h r hr
    rw [hd]
    exact Option.noConfusion
  · obtain ⟨ix, rows3, hfc, hm, hg, hl⟩ := clean_records_ok h
    obtain ⟨hci, hsi, -, -, -, -⟩ := findCols_eq hfc
    subst hl
    unfold cleanLog
    rw [List.filter_append]
    rw [List.filter_eq_self.mpr ?hall, List.filter_eq_nil_iff.mpr ?hnil, List.append_nil]
    case hall =>
      intro a ha
      rw [List.mem_map] at ha
      obtain ⟨r, -, rfl⟩ := ha
      rfl
    case hnil =>
      intro a ha
      rw [List.mem_map] at ha
      obtain ⟨r, -, rfl⟩ := ha
      simp [isEmptyDateLog]
    unfold nullRowsOf
    have hfeq : f.rows.filter (fun r => (cellAt ix.ci r).isNone) =
        f.rows.filter (fun r => (lookupCell f.cols r.cells "Contact Date").isNone) :=
      List.filter_congr (fun r _ => by rw [lookupCell_eq_cellAt hci])
    rw [hfeq]
    apply List.map_congr_left
    intro r hr
    rw [lookupCell_eq_cellAt hsi]
  · intro g2 hg2 r2 hr2
    obtain ⟨r, hrg, heq⟩ := format_report_contact_values hg2 r2 hr2
    rw [heq]
    obtain ⟨d, hd, -, -⟩ := clean_output_in_range h r hrg
    rw [hd]
    exact Option.noConfusion

/-- C3, witness: the concrete cleaning run on `exClean` logs exactly one
`emptyDate` warning, for the null-date row, carrying its index and student
tag. -/
theorem C3_witness :
    logClean.filter isEmptyDateLog =
      (exClean.rows.filter (fun r => (lookupCell exClean.cols r.cells "Contact Date").isNone)).map
        (fun r => LogEntry.emptyDate r.idx (lookupCell exClean.cols r.cells "Student Name")) :=
  (C3_null_dates_dropped_and_logged 0 200 pEx exClean gClean logClean (by decide)).2.1

/-! ### Claim C10: cleaning only drops rows and rewrites fields in place -/

/-- C10, counterexample: the cleaned row originating from input row 0 does
not carry the *same* student tag — the Cleaner title-cases it
(`"doe, jane"` becomes `"Doe, Jane"`). -/
theorem C10_counterexample :
    clean_records 0 200 pEx exClean = .ok (gClean, logClean) ∧
    ∃ r' ∈ gClean.rows, ∀ r ∈ exClean.rows, r.idx = r'.idx →
      lookupCell gClean.cols r'.cells "Student Name" ≠
        lookupCell exClean.cols r.cells "Student Name" := by
  decide

/-- C10 (amended): cleaning never creates or duplicates records — the
cleaned index sequence is a subsequence of the collected one (so each
cleaned row originates from a collected row with the same index, and the
cleaned row count is at most the collected count), the columns are
unchanged, and each cleaned row's student tag is its originating row's tag
rewritten by the Cleaner's name normalization. -/
theorem C10_provenance_amended :
    ∀ (sd ed : Int) (p : String → Option Int) (f g : Frame) (log : List LogEntry),
      clean_records sd ed p f = .ok (g, log) →
      g.cols = f.cols ∧
      (g.rows.map Row.idx).Sublist (f.rows.map Row.idx) ∧
      g.rows.length ≤ f.rows.length ∧
      ∀ r' ∈ g.rows, ∃ r ∈ f.rows, r.idx = r'.idx ∧
        lookupCell g.cols r'.cells "Student Name" =
          nameCell (lookupCell f.cols r.cells "Student Name") := by
  intro sd ed p f g log h
  obtain ⟨ix, rows3, hfc, hm, hg, -⟩ := clean_records_ok h
  obtain ⟨hci, hsi, hti, hai, hwi, hmi⟩ := findCols_eq hfc
  obtain ⟨hsc, hts, has, hws, hms⟩ := colIx_distinct hfc
  subst hg
  have s1 : (filterDates sd ed ix.ci (textPipeline ix rows3)).Sublist
      (textPipeline ix rows3) := List.filter_sublist _
  have e2 : (textPipeline ix rows3).map Row.idx = rows3.map Row.idx := by
    unfold textPipeline
    rw [mapCol_idx, mapCol_idx, mapCol_idx, mapCol_idx, mapCol_idx, mapCol_idx]
  have e3 : rows3.map Row.idx = (dropInv ix.ci f.rows).map Row.idx :=
    @forall₂_map_eq Row Row Nat (fun a b => parseRow p ix.ci a = .ok b) Row.idx Row.idx
      (fun a b hab => (parseRow_ok_parts hab).1) _ _ (mapE_ok_forall₂ hm)
  have s4 : (dropInv ix.ci f.rows).Sublist (keptRows ix.ci f.rows) := by
    unfold dropInv
    exact foldlFilter_sublist _ _
  have s5 : (keptRows ix.ci f.rows).Sublist f.rows := List.filter_sublist _
  have hidx : ((filterDates sd ed ix.ci (textPipeline ix rows3)).map Row.idx).Sublist
      (f.rows.map Row.idx) := by
    have hmid : ((textPipeline ix rows3).map Row.idx).Sublist (f.rows.map Row.idx) := by
      rw [e2, e3]
      exact (s4.trans s5).map Row.idx
    exact (s1.map Row.idx).trans hmid
  refine ⟨rfl, hidx, ?_, ?_⟩
  · have hle := hidx.length_le
    rw [List.length_map, List.length_map] at hle
    exact hle
  · intro r' hr'
    have hr'' : r' ∈ filterDates sd ed ix.ci (textPipeline ix rows3) := hr'
    unfold filterDates at hr''
    have hr3mem := (List.mem_filter.mp hr'').1
    obtain ⟨r3, h3, hidx', hcell⟩ := textPipeline_mem hr3mem hts has hws hms
    obtain ⟨r2, hr2, hpr⟩ := forall₂_mem_right (mapE_ok_forall₂ hm) r3 h3
    obtain ⟨hidx2, c, hc, hcells⟩ := parseRow_ok_parts hpr
    have hr2f : r2 ∈ f.rows := by
      have hk : r2 ∈ keptRows ix.ci f.rows := by
        have hd : r2 ∈ dropInv ix.ci f.rows := hr2
        unfold dropInv at hd
        exact (mem_foldlFilter.mp hd).1
      unfold keptRows at hk
      exact (List.mem_filter.mp hk).1
    refine ⟨r2, hr2f, (hidx'.trans hidx2).symm, ?_⟩
    show lookupCell f.cols r'.cells "Student Name" = _
    rw [lookupCell_eq_cellAt hsi, lookupCell_eq_cellAt hsi, hcell]
    congr 1
    show r3.cells.getD ix.si none = cellAt ix.si r2
    rw [hcells, cellAt_set_ne (Ne.symm hsc)]
    rfl

/-- C10, witness: the amended statement evaluated on the concrete run — the
cleaned columns coincide with the collected ones and the cleaned index
sequence is a subsequence of the collected one. -/
theorem C10_witness :
    gClean.cols = exClean.cols ∧
    (gClean.rows.map Row.idx).Sublist (exClean.rows.map Row.idx) :=
  ⟨(C10_provenance_amended 0 200 pEx exClean gClean logClean (by decide)).1,
   (C10_provenance_amended 0 200 pEx exClean gClean logClean (by decide)).2.1⟩

/-! ### Claim C5: rows with non-date text never make the parser fatal -/

/-- C5: on any batch whose every row either has a null date cell, or a date
cell matching the capitalized-text pattern, or a date cell the parser
accepts, `clean_records` succeeds — the pattern rows are removed before
parsing, so their presence never turns into an unrecovered parse fault for
the valid rows — and every pattern-matching row is absent from the output
(by row index) and logged as invalid with its student tag. -/
theorem C5_invalid_text_rows :
    ∀ (sd ed : Int) (p : String → Option Int) (f : Frame),
      "Contact Date" ∈ f.cols → "Student Name" ∈ f.cols →
      "Content/Topic of the Exchange" ∈ f.cols → "Actions and/or Follow up" ∈ f.cols →
      "Assigned to Writing Fellow" ∈ f.cols → "Correspondence Method" ∈ f.cols →
      (∀ r ∈ f.rows, (lookupCell f.cols r.cells "Contact Date").isNone = true ∨
        matchCap (lookupCell f.cols r.cells "Contact Date") = true ∨
        cellParses p (lookupCell f.cols r.cells "Contact Date") = true) →
      ∃ g log, clean_records sd ed p f = .ok (g, log) ∧
        ∀ r ∈ f.rows, matchCap (lookupCell f.cols r.cells "Contact Date") = true →
          (∀ r' ∈ g.rows, r'.idx ≠ r.idx) ∧
          LogEntry.invalid r.idx (lookupCell f.cols r.cells "Student Name") ∈ log := by
  intro sd ed p f h1 h2 h3 h4 h5 h6 hval
  obtain ⟨ix, hfc⟩ := findCols_of_mem h1 h2 h3 h4 h5 h6
  obtain ⟨hci, hsi, -, -, -, -⟩ := findCols_eq hfc
  have hparse : ∀ r ∈ dropInv ix.ci f.rows, ∃ r3, parseRow p ix.ci r = .ok r3 := by
    intro r hr
    unfold dropInv at hr
    have hr' := mem_foldlFilter.mp hr
    have hkept := hr'.1
    unfold keptRows at hkept
    have hmem : r ∈ f.rows := (List.mem_filter.mp hkept).1
    have hnn : (cellAt ix.ci r).isNone = false := by
      have := (List.mem_filter.mp hkept).2
      cases hh : (cellAt ix.ci r).isNone
      · rfl
      · rw [hh] at this; cases this
    have hnm : matchCap (cellAt ix.ci r) = false := by
      cases hmc : matchCap (cellAt ix.ci r) with
      | false => rfl
      | true =>
        have hinv : r ∈ invRowsOf ix.ci f.rows := by
          unfold invRowsOf keptRows
          exact List.mem_filter.mpr ⟨hkept, hmc⟩
        exact absurd rfl (hr'.2 r hinv)
    have hv := hval r hmem
    rw [lookupCell_eq_cellAt hci] at hv
    rcases hv with hv | hv | hv
    · rw [hnn] at hv; cases hv
    · rw [hnm] at hv; cases hv
    · unfold cellParses at hv
      cases hp : parseCell p (cellAt ix.ci r) with
      | error e => rw [hp] at hv; cases hv
      | ok c =>
        refine ⟨⟨r.idx, r.cells.set ix.ci c⟩, ?_⟩
        unfold parseRow
        rw [hp]
  obtain ⟨rows3, hm⟩ := mapE_ok_of_all hparse
  have hcr : clean_records sd ed p f = .ok
      (⟨f.cols, filterDates sd ed ix.ci (textPipeline ix rows3)⟩, cleanLog ix f.rows) := by
    simp only [clean_records, hfc, hm]
  refine ⟨_, _, hcr, ?_⟩
  intro r hrf hmc
  rw [lookupCell_eq_cellAt hci] at hmc
  have hnn : (!(cellAt ix.ci r).isNone) = true := by
    cases hc : cellAt ix.ci r with
    | none => rw [hc] at hmc; cases hmc
    | some v => rfl
  have hkept : r ∈ keptRows ix.ci f.rows := by
    unfold keptRows
    exact List.mem_filter.mpr ⟨hrf, hnn⟩
  have hinv : r ∈ invRowsOf ix.ci f.rows := by
    unfold invRowsOf
    exact List.mem_filter.mpr ⟨hkept, hmc⟩
  constructor
  · intro r' hr'g
    have hr'' : r' ∈ filterDates sd ed ix.ci (textPipeline ix rows3) := hr'g
    unfold filterDates at hr''
    obtain ⟨r3, h3, hidx3⟩ := textPipeline_idx_mem (List.mem_filter.mp hr'').1
    obtain ⟨r2, hr2, hpr⟩ := forall₂_mem_right (mapE_ok_forall₂ hm) r3 h3
    have hni : ∀ rv ∈ invRowsOf ix.ci f.rows, r2.idx ≠ rv.idx := by
      have hd : r2 ∈ dropInv ix.ci f.rows := hr2
      unfold dropInv at hd
      exact (mem_foldlFilter.mp hd).2
    rw [hidx3, (parseRow_ok_parts hpr).1]
    exact hni r hinv
  · show LogEntry.invalid r.idx (lookupCell f.cols r.cells "Student Name") ∈ cleanLog ix f.rows
    rw [lookupCell_eq_cellAt hsi]
    unfold cleanLog
    exact List.mem_append_right _ (List.mem_map.mpr ⟨r, hinv, rfl⟩)

/-- C5, witness: the hypotheses and conclusions evaluated on the concrete
batch `exClean`, whose rows exercise all three cases. -/
theorem C5_witness :
    ∃ g log, clean_records 0 200 pEx exClean = .ok (g, log) ∧
      ∀ r ∈ exClean.rows, matchCap (lookupCell exClean.cols r.cells "Contact Date") = true →
        (∀ r' ∈ g.rows, r'.idx ≠ r.idx) ∧
        LogEntry.invalid r.idx (lookupCell exClean.cols r.cells "Student Name") ∈ log :=
  C5_invalid_text_rows 0 200 pEx exClean (by decide) (by decide) (by decide) (by decide)
    (by decide) (by decide) (by decide)

/-! ### Claim C1: the inclusive date window -/

/-- C1: the Cleaner's date filter retains a row precisely when its
contact-date cell holds a date inside `[start_date, end_date]` inclusive (so
a record dated exactly on either bound is retained and one dated one day
outside either bound is not), and every row of a successful `clean_records`
output satisfies that window test on its `Contact Date` column. -/
theorem C1_date_filter_inclusive :
    (∀ (sd ed : Int) (i : Nat) (rows : List Row) (r : Row), r ∈ rows →
      (r ∈ filterDates sd ed i rows ↔ InRangeP sd ed (cellAt i r))) ∧
    (∀ (sd ed : Int) (p : String → Option Int) (f g : Frame) (log : List LogEntry),
      clean_records sd ed p f = .ok (g, log) →
      ∀ r ∈ g.rows, InRangeP sd ed (lookupCell g.cols r.cells "Contact Date")) := by
  constructor
  · intro sd ed i rows r hr
    unfold filterDates
    rw [List.mem_filter]
    constructor
    · intro h
      exact inRangeB_iff.mp h.2
    · intro h
      exact ⟨hr, inRangeB_iff.mpr h⟩
  · intro sd ed p f g log h r hrg
    exact clean_output_in_range h r hrg

/-- C1, witness: with the window `[10, 20]`, the rows dated 10 and 20 are
retained and the rows dated 9 and 21 are dropped. -/
theorem C1_witness :
    c1row 0 10 ∈ filterDates 10 20 0 c1rows ∧
    c1row 1 20 ∈ filterDates 10 20 0 c1rows ∧
    c1row 2 9 ∉ filterDates 10 20 0 c1rows ∧
    c1row 3 21 ∉ filterDates 10 20 0 c1rows := by
  refine ⟨?_, ?_, ?_, ?_⟩
  · exact (C1_date_filter_inclusive.1 10 20 0 c1rows _ (by decide)).mpr
      ⟨10, rfl, by decide, by decide⟩
  · exact (C1_date_filter_inclusive.1 10 20 0 c1rows _ (by decide)).mpr
      ⟨20, rfl, by decide, by decide⟩
  · intro hmem
    obtain ⟨d, hd, h1, h2⟩ :=
      (C1_date_filter_inclusive.1 10 20 0 c1rows _ (by decide)).mp hmem
    simp only [c1row, cellAt, List.getD_cons_zero, Option.some.injEq, Value.date.injEq] at hd
    omega
  · intro hmem
    obtain ⟨d, hd, h1, h2⟩ :=
      (C1_date_filter_inclusive.1 10 20 0 c1rows _ (by decide)).mp hmem
    simp only [c1row, cellAt, List.getD_cons_zero, Option.some.injEq, Value.date.injEq] at hd
    omega

/-! ### Claim C2: the Formatter's output columns -/

theorem count_filter {l : List String} {t : String} :
    l.count t = (l.filter (fun c => c == t)).length := by
  rw [List.count, List.countP_eq_length_filter]

theorem filter_label_singleton {cols : List String} {t : String}
    (hmem : t ∈ cols) (hcount : cols.count t ≤ 1) :
    cols.filter (fun c => c == t) = [t] := by
  rw [count_filter] at hcount
  obtain ⟨A', hA⟩ := filter_label_cons_of_mem hmem
  rw [hA] at hcount ⊢
  have hnil : A' = [] := by
    cases A' with
    | nil => rfl
    | cons x xs =>
      simp only [List.length_cons] at hcount
      omega
  rw [hnil]

theorem flatMap_singleton {h : String → List String} :
    ∀ tgt : List String, (∀ t ∈ tgt, h t = [t]) → tgt.flatMap h = tgt := by
  intro tgt
  induction tgt with
  | nil => intro _; rfl
  | cons t ts ih =>
    intro hall
    rw [List.flatMap_cons, hall t (List.mem_cons_self _ _),
      ih (fun x hx => hall x (List.mem_cons_of_mem _ hx))]
    rfl

/-- C2, counterexample: on an input carrying both the `Contact Info` source
column and a stray column already named `Student Contact Info`, the rename
step makes two columns bear the label `Student Contact Info`, and the final
`df[[...]]` selection returns both — pandas label selection returns every
column with a requested label — so the Formatter succeeds with eleven
columns, not ten. -/
theorem C2_counterexample :
    format_report exDupSCI = .ok gDup ∧ gDup.cols ≠ reportColumns ∧
    gDup.cols.length = 11 ∧ reportColumns.length = 10 := by
  decide

/-- C2 (amended): whenever the Formatter produces an output table and each
of the ten report-column names labels at most one column of the input after
the duplicate-drop and rename — in particular whenever the input's only
duplicates are the `.1`-suffixed kind — the output has precisely the ten
report columns, in order, with one output row per input row.  A genuinely
duplicated report label is instead replicated in the output. -/
theorem C2_formatter_columns_amended :
    ∀ f g : Frame, format_report f = .ok g →
      (∀ t ∈ reportColumns, (renameFrame (dropDupCols f)).cols.count t ≤ 1) →
      g.cols = reportColumns ∧ g.rows.length = f.rows.length := by
  intro f g h hdup
  obtain ⟨f3, hdt, hsel⟩ := format_report_ok h
  obtain ⟨hg, hall⟩ := selectCols_ok hsel
  obtain ⟨hc3, i, hi, hrows3, -⟩ := dtDate_ok hdt
  subst hg
  constructor
  · show reportColumns.flatMap (fun t => f3.cols.filter (fun c => c == t)) = reportColumns
    apply flatMap_singleton
    intro t ht
    apply filter_label_singleton
    · exact colIdx_isSome_iff.mp (hall t ht)
    · rw [hc3]
      exact hdup t ht
  · show (f3.rows.map _).length = f.rows.length
    rw [List.length_map, hrows3]
    unfold mapCol
    rw [List.length_map]
    show (dropDupCols f).rows.length = f.rows.length
    unfold dropDupCols
    exact List.length_map _ _

/-- C2, witness: on an input with all required columns plus a `.1` duplicate
and an extra column — and no duplicated report label — the Formatter
succeeds and emits exactly the ten report columns. -/
theorem C2_witness : ∃ g, format_report exFmt = .ok g ∧ g.cols = reportColumns := by
  cases hf : format_report exFmt with
  | error e =>
    have hok : (format_report exFmt).isOk = true := by decide
    rw [hf] at hok
    cases hok
  | ok g => exact ⟨g, rfl, (C2_formatter_columns_amended exFmt g hf (by decide)).1⟩

/-! ### Claim C9: which columns the duplicate-drop removes -/

/-- C9, counterexample: line 157 tests substring containment (`'.1' in x`),
not a name suffix.  The column `Notes.10` does not end in `.1`, yet the
Formatter's drop step removes it. -/
theorem C9_counterexample :
    "Notes.10" ∈ exDotTen.cols ∧ endsWithDotOne "Notes.10" = false ∧
    "Notes.10" ∉ (dropDupCols exDotTen).cols := by
  decide

/-- C9 (amended): the Formatter's duplicate-column step drops exactly the
columns whose name contains `.1` as a substring — which includes every
`.1`-suffixed duplicate name — and no others. -/
theorem C9_drop_columns_amended :
    ∀ (f : Frame) (c : String),
      c ∈ (dropDupCols f).cols ↔ (c ∈ f.cols ∧ ¬ ∃ a b, c.data = a ++ dotOne ++ b) := by
  intro f c
  show c ∈ f.cols.filter (fun x => !hasDotOne x) ↔ _
  rw [List.mem_filter]
  constructor
  · rintro ⟨h1, h2⟩
    refine ⟨h1, fun hex => ?_⟩
    have hsub := (hasSubL_iff dotOne c.data).mpr hex
    rw [hasDotOne, hsub] at h2
    cases h2
  · rintro ⟨h1, h2⟩
    refine ⟨h1, ?_⟩
    cases hs : hasSubL dotOne c.data with
    | false => simp [hasDotOne, hs]
    | true => exact absurd ((hasSubL_iff dotOne c.data).mp hs) h2

/-- C9, witness: the amended statement evaluated on a concrete frame — a
clean name is kept. -/
theorem C9_witness : "Contact Date" ∈ (dropDupCols exDotTen).cols :=
  (C9_drop_columns_amended exDotTen "Contact Date").mpr
    ⟨by decide, fun hex => absurd ((hasSubL_iff dotOne "Contact Date".data).mpr hex) (by decide)⟩

/-! ### Claim C6: a missing required column -/

/-- C6, counterexample: with the `Contact Info` source column absent but a
column already named `Student Contact Info` present, the Formatter succeeds
instead of failing — `DataFrame.rename` renames only the columns that exist,
and the final selection then finds the presentation name. -/
theorem C6_counterexample :
    ("Contact Info" ∉ exNoContactInfo.cols) ∧ (format_report exNoContactInfo).isOk = true := by
  decide

/-- C6 (amended): if a required source column is absent and no column bearing
its presentation (renamed) name is present either, the Formatter fails
rather than producing an output table; the missing column is never defaulted
or skipped. -/
theorem C6_missing_column_fails_amended :
    ∀ (f : Frame) (s : String), s ∈ requiredSourceCols →
      s ∉ f.cols → renameCol s ∉ f.cols → (format_report f).isOk = false := by
  intro f s hs hsrc htgt
  cases hfr : format_report f with
  | error e => rfl
  | ok g =>
    exfalso
    obtain ⟨f3, hdt, hsel⟩ := format_report_ok hfr
    obtain ⟨_, hall⟩ := selectCols_ok hsel
    obtain ⟨hc3, _, hrest⟩ := dtDate_ok hdt
    have hpair := req_mem_pairs s hs
    have htR : renameCol s ∈ reportColumns := (req_pairs_snd _ hpair).2
    have hsome := hall _ htR
    rw [colIdx_isSome_iff, hc3] at hsome
    have hsome' : renameCol s ∈ (dropDupCols f).cols.map renameCol := hsome
    rw [List.mem_map] at hsome'
    obtain ⟨c, hcmem, hcr⟩ := hsome'
    have hcf : c ∈ f.cols := by
      have hcm : c ∈ f.cols.filter (fun x => !hasDotOne x) := hcmem
      exact (List.mem_filter.mp hcm).1
    rcases renameCol_preimage_req hpair c hcr with rfl | rfl
    · exact hsrc hcf
    · exact htgt hcf

/-- C6, witness: the amended statement on a concrete frame missing `Major`:
the Formatter fails. -/
theorem C6_witness : (format_report exNoMajor).isOk = false :=
  C6_missing_column_fails_amended exNoMajor "Major" (by decide) (by decide) (by decide)

/-! ### Facts about the Collector -/

theorem reindex_lookup (cellss : List (List Cell)) (U : List String) (c : String) :
    (reindexRows cellss).map (fun r => lookupCell U r.cells c) =
      cellss.map (fun cs => lookupCell U cs c) := by
  unfold reindexRows
  rw [List.map_map]
  have h : (cellss.enum.map Prod.snd).map (fun cs => lookupCell U cs c) =
      cellss.map (fun cs => lookupCell U cs c) := by rw [List.enum_map_snd]
  rw [← h, List.map_map]
  rfl

theorem appendFrames_length (a b : Frame) :
    (appendFrames a b).rows.length = a.rows.length + b.rows.length := by
  unfold appendFrames reindexRows
  rw [List.length_map, List.enum_length, List.length_append, List.length_map, List.length_map]

theorem mem_unionCols_left {a b : List String} {c : String} (h : c ∈ a) :
    c ∈ unionCols a b :=
  List.mem_append_left _ h

theorem mem_unionCols_right {a b : List String} {c : String} (h : c ∈ b) :
    c ∈ unionCols a b := by
  by_cases ha : c ∈ a
  · exact List.mem_append_left _ ha
  · refine List.mem_append_right _ ?_
    rw [List.mem_filter]
    exact ⟨h, by simpa using ha⟩

theorem colValuesF_append {a b : Frame} {c : String}
    (hc : c ∈ a.cols ∨ (a.cols = [] ∧ a.rows = [])) :
    colValuesF (appendFrames a b) c =
      colValuesF a c ++ b.rows.map (fun r => lookupCell b.cols r.cells c) := by
  show (reindexRows _).map (fun r => lookupCell (unionCols a.cols b.cols) r.cells c) = _
  rw [reindex_lookup _ (unionCols a.cols b.cols) c, List.map_append, List.map_map, List.map_map]
  congr 1
  · -- the a-block
    rcases hc with hc | ⟨-, hrows⟩
    · apply List.map_congr_left
      intro r _
      exact toColumns_lookup (mem_unionCols_left hc)
    · unfold colValuesF
      rw [hrows]
      rfl
  · -- the b-block
    apply List.map_congr_left
    intro r _
    show lookupCell (unionCols a.cols b.cols)
      (toColumns b.cols r.cells (unionCols a.cols b.cols)) c = lookupCell b.cols r.cells c
    by_cases hU : c ∈ unionCols a.cols b.cols
    · rw [toColumns_lookup hU]
    · have hbnot : c ∉ b.cols := fun hbb => hU (mem_unionCols_right hbb)
      rw [lookupCell_of_none (colIdx_eq_none hU), lookupCell_of_none (colIdx_eq_none hbnot)]

theorem setColumn_eq_some {f : Frame} {c : String} {v : Cell} {i : Nat}
    (h : colIdx f.cols c = some i) :
    setColumn f c v = ⟨f.cols, f.rows.map (fun r => ⟨r.idx, r.cells.set i v⟩)⟩ := by
  unfold setColumn
  rw [h]

theorem setColumn_eq_none {f : Frame} {c : String} {v : Cell}
    (h : colIdx f.cols c = none) :
    setColumn f c v = ⟨f.cols ++ [c], f.rows.map (fun r => ⟨r.idx, r.cells ++ [v]⟩)⟩ := by
  unfold setColumn
  rw [h]

theorem setColumn_mem_cols (f : Frame) (c : String) (v : Cell) :
    c ∈ (setColumn f c v).cols := by
  cases h : colIdx f.cols c with
  | some i =>
    rw [setColumn_eq_some h]
    exact colIdx_isSome_iff.mp (by rw [h]; rfl)
  | none =>
    rw [setColumn_eq_none h]
    exact List.mem_append_right _ (by simp)

theorem setColumn_length (f : Frame) (c : String) (v : Cell) :
    (setColumn f c v).rows.length = f.rows.length := by
  cases h : colIdx f.cols c with
  | some i => rw [setColumn_eq_some h]; exact List.length_map _ _
  | none => rw [setColumn_eq_none h]; exact List.length_map _ _

theorem lookup_append_last {cols : List String} {c : String} {v : Cell}
    (hnone : colIdx cols c = none) :
    ∀ {cells : List Cell}, cells.length = cols.length →
      lookupCell (cols ++ [c]) (cells ++ [v]) c = v := by
  induction cols with
  | nil =>
    intro cells hlen
    have hnil : cells = [] := List.length_eq_zero.mp hlen
    subst hnil
    simp [lookupCell]
  | cons c0 cols' ih =>
    intro cells hlen
    rw [colIdx] at hnone
    split_ifs at hnone with h0
    have hnone' : colIdx cols' c = none := by
      cases hx : colIdx cols' c with
      | none => rfl
      | some j => rw [hx] at hnone; cases hnone
    cases cells with
    | nil => simp at hlen
    | cons x xs =>
      show lookupCell (c0 :: (cols' ++ [c])) (x :: (xs ++ [v])) c = v
      rw [lookupCell, if_neg h0, List.tail_cons]
      exact ih hnone' (by simpa using hlen)

theorem setColumn_lookup {f : Frame} {c : String} {v : Cell}
    (hwf : ∀ r ∈ f.rows, r.cells.length = f.cols.length) :
    ∀ r ∈ (setColumn f c v).rows, lookupCell (setColumn f c v).cols r.cells c = v := by
  cases hci : colIdx f.cols c with
  | some i =>
    rw [setColumn_eq_some hci]
    intro r hr
    rw [List.mem_map] at hr
    obtain ⟨r0, hr0, rfl⟩ := hr
    show lookupCell f.cols (r0.cells.set i v) c = v
    rw [lookupCell_eq hci]
    have hi : i < r0.cells.length := by rw [hwf r0 hr0]; exact colIdx_lt hci
    rw [List.getD_eq_getElem?_getD, List.getElem?_set_self hi]
    rfl
  | none =>
    rw [setColumn_eq_none hci]
    intro r hr
    rw [List.mem_map] at hr
    obtain ⟨r0, hr0, rfl⟩ := hr
    exact lookup_append_last hci (hwf r0 hr0)

theorem sheetFrame_length (s : Sheet) : (sheetFrame s).rows.length = s.rows.length := by
  unfold sheetFrame
  rw [List.length_map, List.enum_length]

theorem sheetFrame_wf {s : Sheet} (h : Sheet.wf s = true) :
    ∀ r ∈ (sheetFrame s).rows, r.cells.length = (sheetFrame s).cols.length := by
  intro r hr
  unfold sheetFrame at hr
  rw [List.mem_map] at hr
  obtain ⟨q, hq, rfl⟩ := hr
  have hq2 : q.2 ∈ s.rows := by
    have hm := List.mem_map_of_mem Prod.snd hq
    rwa [List.enum_map_snd] at hm
  have := List.all_eq_true.mp h q.2 hq2
  simpa using this

theorem sum_map_rows_const {l : List Sheet} {k : Nat} (h : ∀ s ∈ l, s.rows.length = k) :
    (l.map (fun s => s.rows.length)).sum = l.length * k := by
  induction l with
  | nil => simp
  | cons s ss ih =>
    rw [List.map_cons, List.sum_cons, ih (fun x hx => h x (List.mem_cons_of_mem _ hx)),
      h s (List.mem_cons_self _ _), List.length_cons, Nat.succ_mul]
    omega

theorem collect_fold (sheets : List Sheet) :
    (∀ s ∈ sheets, Sheet.wf s = true) →
    ∀ acc : Frame, ("Student Name" ∈ acc.cols ∨ (acc.cols = [] ∧ acc.rows = [])) →
      ((sheets.foldl
          (fun acc s =>
            appendFrames acc (setColumn (sheetFrame s) "Student Name"
              (some (Value.str s.name)))) acc).rows.length =
        acc.rows.length + (sheets.map (fun s => s.rows.length)).sum) ∧
      colValuesF
          (sheets.foldl
            (fun acc s =>
              appendFrames acc (setColumn (sheetFrame s) "Student Name"
                (some (Value.str s.name)))) acc) "Student Name" =
        colValuesF acc "Student Name" ++
          sheets.flatMap (fun s => s.rows.map (fun _ => some (Value.str s.name))) ∧
      ("Student Name" ∈
          (sheets.foldl
            (fun acc s =>
              appendFrames acc (setColumn (sheetFrame s) "Student Name"
                (some (Value.str s.name)))) acc).cols ∨
        ((sheets.foldl
            (fun acc s =>
              appendFrames acc (setColumn (sheetFrame s) "Student Name"
                (some (Value.str s.name)))) acc).cols = [] ∧
          (sheets.foldl
            (fun acc s =>
              appendFrames acc (setColumn (sheetFrame s) "Student Name"
                (some (Value.str s.name)))) acc).rows = [])) := by
  induction sheets with
  | nil =>
    intro _ acc hacc
    refine ⟨by simp, by simp, hacc⟩
  | cons s ss ih =>
    intro hwf acc hacc
    have hwfs : Sheet.wf s = true := hwf s (List.mem_cons_self _ _)
    have hwfss : ∀ x ∈ ss, Sheet.wf x = true := fun x hx => hwf x (List.mem_cons_of_mem _ hx)
    rw [List.foldl_cons]
    set T := setColumn (sheetFrame s) "Student Name" (some (Value.str s.name)) with hT
    have hTmem : "Student Name" ∈ T.cols := setColumn_mem_cols _ _ _
    have hstep : "Student Name" ∈ (appendFrames acc T).cols ∨
        ((appendFrames acc T).cols = [] ∧ (appendFrames acc T).rows = []) := by
      left
      exact mem_unionCols_right hTmem
    obtain ⟨ihlen, ihvals, ihmem⟩ := ih hwfss (appendFrames acc T) hstep
    refine ⟨?_, ?_, ihmem⟩
    · rw [ihlen, appendFrames_length]
      have hTlen : T.rows.length = s.rows.length := by
        rw [hT, setColumn_length, sheetFrame_length]
      rw [hTlen, List.map_cons, List.sum_cons]
      omega
    · rw [ihvals]
      have hblock : colValuesF (appendFrames acc T) "Student Name" =
          colValuesF acc "Student Name" ++
            s.rows.map (fun _ => some (Value.str s.name)) := by
        rw [colValuesF_append hacc]
        congr 1
        have h1 : T.rows.map (fun r => lookupCell T.cols r.cells "Student Name") =
            T.rows.map (fun _ => (some (Value.str s.name) : Cell)) :=
          List.map_congr_left (fun r hr => setColumn_lookup (sheetFrame_wf hwfs) r hr)
        rw [h1, List.map_const', List.map_const']
        have : T.rows.length = s.rows.length := by
          rw [hT, setColumn_length, sheetFrame_length]
        rw [this]
      rw [hblock, List.flatMap_cons, List.append_assoc]

/-! ### Claim C4: worksheet concatenation and tagging -/

/-- C4: for a workbook of rectangular sheets in which every comma-named
sheet contributes `k` rows, the Collector's output has exactly `N × k` rows
(`N` the number of comma-named sheets), and its `Student Name` column is,
block by block, each selected sheet's name repeated once per row of that
sheet. -/
theorem C4_collector_counts_and_tags :
    ∀ (wb : List Sheet) (k : Nat),
      (∀ s ∈ wb, Sheet.wf s = true) →
      (∀ s ∈ wb, hasComma s.name = true → s.rows.length = k) →
      (collect_data wb).rows.length = (wb.filter (fun s => hasComma s.name)).length * k ∧
      colValuesF (collect_data wb) "Student Name" =
        (wb.filter (fun s => hasComma s.name)).flatMap
          (fun s => s.rows.map (fun _ => some (Value.str s.name))) := by
  intro wb k hwf hk
  have hwfF : ∀ s ∈ wb.filter (fun s => hasComma s.name), Sheet.wf s = true :=
    fun s hs => hwf s (List.mem_filter.mp hs).1
  obtain ⟨hlen, hvals, -⟩ :=
    collect_fold (wb.filter (fun s => hasComma s.name)) hwfF ⟨[], []⟩ (Or.inr ⟨rfl, rfl⟩)
  constructor
  · unfold collect_data
    rw [hlen]
    have hkF : ∀ s ∈ wb.filter (fun s => hasComma s.name), s.rows.length = k := by
      intro s hs
      have hm := List.mem_filter.mp hs
      exact hk s hm.1 hm.2
    rw [sum_map_rows_const hkF]
    simp
  · unfold collect_data
    rw [hvals]
    rfl

/-- C4, witness: on a concrete workbook with two comma-named sheets of two
rows each (and one ignored sheet), the Collector emits `2 × 2` rows tagged
sheet by sheet. -/
theorem C4_witness :
    (collect_data exWb).rows.length = (exWb.filter (fun s => hasComma s.name)).length * 2 ∧
    colValuesF (collect_data exWb) "Student Name" =
      (exWb.filter (fun s => hasComma s.name)).flatMap
        (fun s => s.rows.map (fun _ => some (Value.str s.name))) :=
  C4_collector_counts_and_tags exWb 2 (by decide) (by decide)

/-! ### Claim C8: worksheet selection -/

/-- C8: the Collector reads exactly the worksheets whose name contains a
comma — its result is unchanged if the non-matching sheets are removed
beforehand — and when no sheet name contains a comma the result is the
empty table (the Collector is a total function: this is not an error). -/
theorem C8_sheet_selection :
    (∀ wb : List Sheet,
      collect_data wb = collect_data (wb.filter (fun s => hasComma s.name))) ∧
    (∀ wb : List Sheet, (∀ s ∈ wb, hasComma s.name = false) →
      collect_data wb = (⟨[], []⟩ : Frame)) := by
  constructor
  · intro wb
    unfold collect_data
    rw [List.filter_filter]
    have : wb.filter (fun a => hasComma a.name && hasComma a.name) =
        wb.filter (fun s => hasComma s.name) := by
      apply List.filter_congr
      intro x _
      rw [Bool.and_self]
    rw [this]
  · intro wb h
    unfold collect_data
    rw [List.filter_eq_nil_iff.mpr (fun s hs => by rw [h s hs]; exact fun hc => by cases hc)]
    rfl

/-- C8, witness: a workbook with no comma-named sheet collects to the empty
frame. -/
theorem C8_witness : collect_data exWbNoComma = (⟨[], []⟩ : Frame) :=
  C8_sheet_selection.2 exWbNoComma (by decide)

end WAC
